import Mathlib

/-!
Verification development for the per-record enrichment pipeline
(src/classify.py, src/main.py, src/extract.py).

The Python code is shallowly embedded: Python values that can appear in a
model-produced JSON record are modelled by `PyVal`; Python dicts by ordered
association lists (`PyDict`); fallible Python code (an expression that can
raise) returns `Option`.  Machine floats are modelled as exact rationals
(`Rat`); no claim here depends on rounding, and the comparisons performed by
the code are order comparisons on decimal literals, which agree between the
two representations for every value the code manipulates.
-/

/-- Model of a Python value as found in a JSON-decoded model record.
`float` carries an exact rational: float rounding/underflow is not modelled
(no verified property depends on a float's numeric value). -/
inductive PyVal where
  | none : PyVal
  | bool : Bool → PyVal
  | int : Int → PyVal
  | float : Rat → PyVal
  | str : String → PyVal
  | list : List PyVal → PyVal
  | dict : List (String × PyVal) → PyVal

/-- A Python dict with string keys, as an insertion-ordered association list
(Python dicts preserve insertion order; keys are unique in any dict produced
by `json.loads` or by the code itself). -/
abbrev PyDict := List (String × PyVal)

/-- Python truthiness (`bool(v)`) for the modelled values. -/
def truthy : PyVal → Bool
  | PyVal.none => false
  | PyVal.bool b => b
  | PyVal.int n => n != 0
  | PyVal.float q => q != 0
  | PyVal.str s => s != ""
  | PyVal.list xs => !xs.isEmpty
  | PyVal.dict xs => !xs.isEmpty

/-- `d.get(k)` restricted to present keys: value of the first entry with key
`k` (Python dicts have unique keys, so "first" is exact). -/
def dget (d : PyDict) (k : String) : Option PyVal :=
  (d.find? (fun p => p.1 == k)).map (fun p => p.2)

/-- Python `d.get(k)`: missing key yields `None`. -/
def dgetv (d : PyDict) (k : String) : PyVal :=
  (dget d k).getD PyVal.none

/-- Python `d[k] = v`: replace the value in place if the key exists
(preserving its position), else append a new entry. -/
def dset (d : PyDict) (k : String) (v : PyVal) : PyDict :=
  if d.any (fun p => p.1 == k) then
    d.map (fun p => if p.1 == k then (k, v) else p)
  else d ++ [(k, v)]

/-- Python `v == s` for a string literal `s`: true only when `v` is an equal
string (Python `==` between a non-string and a string is `False`). -/
def pyEqStr (v : PyVal) (s : String) : Bool :=
  match v with
  | PyVal.str t => t == s
  | _ => false

/-- Lift an optional string into a `PyVal` (`None` ↦ `PyVal.none`). -/
def optStrToPy : Option String → PyVal
  | Option.some s => PyVal.str s
  | Option.none => PyVal.none

/-- The value of a `PyVal` known to be a string (used only at points where
the code has already guaranteed a string; the default is never reached). -/
def pyStrAsString : PyVal → String
  | PyVal.str s => s
  | _ => ""

/-- Characters stripped by Python's `str.strip()`. -/
def isPySpace (c : Char) : Bool :=
  c = ' ' || c = '\t' || c = '\n' || c = '\r' || c = '\x0b' || c = '\x0c'

/-- `str.strip()` on the character list: drop leading and trailing
whitespace. -/
def pyStripL (l : List Char) : List Char :=
  ((l.dropWhile isPySpace).reverse.dropWhile isPySpace).reverse

/-- Python `s.strip()`. -/
def pyStrip (s : String) : String :=
  String.mk (pyStripL s.data)

/-- Python `s[:n]` for a nonnegative `n`. -/
def pyTake (s : String) (n : Nat) : String :=
  String.mk (s.data.take n)

/-- Python `needle in hay` for strings: substring containment. -/
def strContains (hay needle : String) : Bool :=
  decide (needle.data <:+: hay.data)

/-- `str.lower()`, as a character-wise map (exact for the ASCII text this
program lowercases). -/
def strToLower (s : String) : String := String.mk (s.data.map Char.toLower)

/-- `str.startswith(p)`. -/
def strStartsWith (s p : String) : Bool := decide (List.IsPrefix p.data s.data)

/-- `list(dict.fromkeys(l))`: deduplicate keeping the first occurrence,
preserving order.  `seen` accumulates the keys already emitted. -/
def dedupFirst (seen : List String) : List String → List String
  | [] => []
  | x :: xs =>
      if seen.contains x then dedupFirst seen xs
      else x :: dedupFirst (x :: seen) xs

/-- Approximate rendering of a Python float (`str(x)`); exact value is a
rational.  No verified property depends on this string. -/
def ratRepr (q : Rat) : String :=
  toString q.num ++ "/" ++ toString q.den

mutual

/-- Python `repr(v)` (approximate: strings are quoted without escaping;
floats are rendered as exact fractions).  Only ever used through `pyStr`
on values that are subsequently filtered against a fixed allow-list of
letter-initial labels, so the approximation is never observable in a
verified property. -/
def pyRepr : PyVal → String
  | PyVal.none => "None"
  | PyVal.bool b => if b then "True" else "False"
  | PyVal.int n => toString n
  | PyVal.float q => ratRepr q
  | PyVal.str s => "\x27" ++ s ++ "\x27"
  | PyVal.list xs => "[" ++ String.intercalate ", " (pyReprList xs) ++ "]"
  | PyVal.dict xs => "\x7b" ++ String.intercalate ", " (pyReprDict xs) ++ "\x7d"

def pyReprList : List PyVal → List String
  | [] => []
  | x :: xs => pyRepr x :: pyReprList xs

def pyReprDict : List (String × PyVal) → List String
  | [] => []
  | p :: xs => ("\x27" ++ p.1 ++ "\x27: " ++ pyRepr p.2) :: pyReprDict xs

end

/-- Python `str(v)`. -/
def pyStr : PyVal → String
  | PyVal.str s => s
  | v => pyRepr v

/-- The organization mapping built by the orchestrator
(src/main.py lines 395-399): `name` is a string, `country`/`website` are
strings or `None`. -/
structure Org where
  name : String
  country : Option String
  website : Option String

/-! ## src/classify.py -/

/-- `infer_stage_from_ticket` (src/classify.py lines 21-28).  The float
argument is modelled as an exact rational. -/
def infer_stage_from_ticket (amount_usd : Option Rat) : Option String :=
  match amount_usd with
  | Option.none => Option.none
  | Option.some a =>
      if 100000 ≤ a ∧ a ≤ 500000 then Option.some "Pre-seed"
      else if 500000 < a ∧ a ≤ 2000000 then Option.some "Seed"
      else if 2000000 < a ∧ a ≤ 10000000 then Option.some "Series A"
      else if 10000000 < a ∧ a ≤ 30000000 then Option.some "Series B"
      else if 30000000 < a then Option.some "Series C"
      else Option.none

/-- `CLS_HINTS` (src/classify.py lines 81-92): ordered (label, keywords)
table for the heuristic funding classification. -/
def CLS_HINTS : List (String × List String) :=
  [("Sovereign Wealth Funds", ["sovereign wealth", "fund for future generations", "pif", "mubadala", "qia"]),
   ("Venture Capital Funds", ["venture capital", "vc fund", "seed fund", "growth fund", "series a", "series b"]),
   ("Angel Investors", ["angel investor", "angel network", "angel group", "syndicate"]),
   ("Microfinance Institutions", ["microfinance", "micro-credit", "micro finance"]),
   ("Accelerators", ["accelerator program", "acceleration program"]),
   ("Incubators", ["incubator", "incubation program"]),
   ("Investment Firms", ["investment firm", "investment company", "private equity", "holding company", "investment bank", "merchant bank"]),
   ("Coworking Spaces", ["coworking", "co-working", "shared workspace"]),
   ("Entrepreneurship Support Agencies", ["agency", "authority", "ministry", "directorate", "national program", "ecosystem support", "policy program"]),
   ("Universities & Research Centers", ["university", "research center", "research institute", "technology transfer", "tto"])]

/-- `heuristic_funding_classification` (src/classify.py lines 94-102):
first label of `CLS_HINTS` with a keyword hit in `"{name} {text}".lower()`;
else "Investment Firms" (the code's bank check returns the same label as
its final default). -/
def heuristic_funding_classification (name text : String) : String :=
  let s := strToLower (name ++ " " ++ text)
  match CLS_HINTS.find? (fun p => p.2.any (fun kw => strContains s kw)) with
  | Option.some p => p.1
  | Option.none => if strContains s "bank" then "Investment Firms" else "Investment Firms"

/-- `NEW_SECTOR_KEYWORDS` (src/classify.py lines 105-118). -/
def NEW_SECTOR_KEYWORDS : List (String × List String) :=
  [("ICT", ["software", "ai", "cloud", "big data", "cybersecurity", "fintech", "insurtech", "proptech", "e-commerce"]),
   ("Health", ["biotech", "pharma", "medtech", "digital health", "life sciences"]),
   ("Energy", ["renewable", "solar", "wind", "hydro", "cleantech", "energy storage", "efficiency", "oil", "gas"]),
   ("Agriculture", ["agritech", "agri-tech", "agriculture", "farming", "foodtech", "crop", "livestock"]),
   ("Environment", ["water management", "waste", "recycling", "climate", "conservation", "carbon"]),
   ("Industry & Manufacturing", ["robotics", "automation", "advanced materials", "3d printing", "manufacturing"]),
   ("Transportation & Mobility", ["aviation", "automotive", "shipping", "logistics", "ev", "mobility", "space tech"]),
   ("Education", ["edtech", "education", "training", "skills", "learning"]),
   ("Creative Industries", ["media", "gaming", "film", "design", "digital content", "creative"]),
   ("Infrastructure & Real Estate", ["real estate", "housing", "smart city", "construction", "industrial zone", "infrastructure"]),
   ("Social Impact", ["poverty", "women", "refugee", "youth employment", "inclusive"]),
   ("Business & Professional Services", ["banking", "insurance", "asset management", "consulting", "law firm", "advisory", "professional services"])]

/-- `infer_sectors_multi` (src/classify.py lines 120-128): labels whose
keyword list hits the lowered text, in table order, capped at 4. -/
def infer_sectors_multi (text : String) : List String :=
  let s := strToLower text
  ((NEW_SECTOR_KEYWORDS.filter (fun p => p.2.any (fun kw => strContains s kw))).map (fun p => p.1)).take 4

/-! ## src/main.py — website resolution helpers -/

/-- Scheme characters after the first (Python `urllib.parse` compatible). -/
def isSchemeChar (c : Char) : Bool :=
  c.isAlpha || c.isDigit || c = '+' || c = '-' || c = '.'

/-- Strip a leading `scheme:` as Python's `urlsplit` does: the prefix before
the first ':' must start with a letter and consist of scheme characters. -/
def splitScheme (l : List Char) : List Char :=
  match l.findIdx? (fun c => c = ':') with
  | Option.none => l
  | Option.some i =>
      match l.take i with
      | [] => l
      | c :: rest => if c.isAlpha && rest.all isSchemeChar then l.drop (i + 1) else l

/-- A character ending the netloc portion of a URL. -/
def isNetlocEnd (c : Char) : Bool :=
  c = '/' || c = '?' || c = '#'

/-- The parts of `urlparse` that `_normalize_ddg_href` reads. -/
structure UrlParts where
  netloc : String
  path : String
  query : String

/-- `urllib.parse.urlparse`, reduced to netloc/path/query: netloc follows a
leading `//` of the scheme-stripped URL and runs to the first of `/?#`; the
fragment (after the first '#') is split off before the query (after the
first '?'). -/
def urlparse3 (s : String) : UrlParts :=
  let l := splitScheme s.data
  let netloc :=
    match l with
    | '/' :: '/' :: r => r.takeWhile (fun c => !isNetlocEnd c)
    | _ => []
  let rest :=
    match l with
    | '/' :: '/' :: r => r.dropWhile (fun c => !isNetlocEnd c)
    | _ => l
  let rest := rest.takeWhile (fun c => c ≠ '#')
  match rest.findIdx? (fun c => c = '?') with
  | Option.none => ⟨String.mk netloc, String.mk rest, ""⟩
  | Option.some i => ⟨String.mk netloc, String.mk (rest.take i), String.mk (rest.drop (i + 1))⟩

/-- Hexadecimal digit value. -/
def hexVal (c : Char) : Option Nat :=
  if c.isDigit then Option.some (c.toNat - '0'.toNat)
  else if 'a' ≤ c ∧ c ≤ 'f' then Option.some (c.toNat - 'a'.toNat + 10)
  else if 'A' ≤ c ∧ c ≤ 'F' then Option.some (c.toNat - 'A'.toNat + 10)
  else Option.none

/-- Python `urllib.parse.unquote_plus` on a character list: '+' becomes a
space, `%XX` hex pairs are decoded bytewise (exact for ASCII; multi-byte
UTF-8 assembly is not modelled — no evaluated string needs it). -/
def unquotePlusL : List Char → List Char
  | [] => []
  | '%' :: a :: b :: rest =>
      match hexVal a, hexVal b with
      | Option.some x, Option.some y => Char.ofNat (16 * x + y) :: unquotePlusL rest
      | _, _ => '%' :: unquotePlusL (a :: b :: rest)
  | '+' :: rest => ' ' :: unquotePlusL rest
  | c :: rest => c :: unquotePlusL rest

/-- `query.split("&")` on a character list, matching Python `str.split` with
a one-character separator (an empty string splits to one empty segment). -/
def splitOnChar (sep : Char) : List Char → List (List Char)
  | [] => [[]]
  | c :: rest =>
      let r := splitOnChar sep rest
      if c = sep then [] :: r
      else
        match r with
        | h :: t => (c :: h) :: t
        | [] => [[c]]

/-- `parse_qs(query).get(key, [None])[0]` (src/main.py lines 158-159): split
the query on '&'; keep `name=value` pairs whose raw value is nonempty
(Python's default `keep_blank_values=False` drops blank values); decode both
parts with `unquote_plus`; return the first value bound to `key`. -/
def parse_qs_first (query key : String) : Option String :=
  let pairs := (splitOnChar '&' query.data).filterMap (fun seg =>
    match seg.findIdx? (fun c => c = '=') with
    | Option.none => Option.none
    | Option.some i =>
        let rawVal := seg.drop (i + 1)
        if rawVal.isEmpty then Option.none
        else Option.some (String.mk (unquotePlusL (seg.take i)), String.mk (unquotePlusL rawVal)))
  (pairs.find? (fun p => p.1 == key)).map (fun p => p.2)

/-- `_normalize_ddg_href` (src/main.py lines 142-164).  `Option.none` models
Python `None`: the `isinstance` guard rejects non-strings, and the
`try/except` means the body never raises. -/
def normalize_ddg_href (raw : PyVal) : Option String :=
  match raw with
  | PyVal.str s0 =>
      let s := pyStrip s0
      if s == "" then Option.none
      else if strStartsWith s "http://" || strStartsWith s "https://" then Option.some s
      else
        let p := urlparse3 s
        if strContains p.netloc "duckduckgo.com" && strStartsWith p.path "/l/" then
          match parse_qs_first p.query "uddg" with
          | Option.some uddg =>
              if strStartsWith uddg "http://" || strStartsWith uddg "https://" then Option.some uddg
              else Option.none
          | Option.none => Option.none
        else Option.none
  | _ => Option.none

/-- The substrings `_is_social` scans for (src/main.py lines 166-168). -/
def SOCIAL_SUBSTRINGS : List String :=
  ["linkedin.com", "facebook.com", "twitter.com", "x.com", "instagram.com", "t.co"]

/-- `_is_social` (src/main.py lines 166-168): substring scan over the whole
lowercased URL. -/
def is_social (url : String) : Bool :=
  SOCIAL_SUBSTRINGS.any (fun s => strContains (strToLower url) s)

/-! ## src/main.py — sanitization -/

/-- `clip` (src/main.py lines 85-88): `None` for an empty string, else strip
and, when longer than `n` characters, truncate to `n` and append "...". -/
def clip (s : String) (n : Nat) : Option String :=
  if s == "" then Option.none
  else
    let t := pyStrip s
    Option.some (if n < t.length then pyTake t n ++ "..." else t)

/-- `ALLOWED_SECTORS` (src/main.py lines 243-247).  A Python set of which
only membership is used, so a list model is exact. -/
def ALLOWED_SECTORS : List String :=
  ["Information & Communication Technology (ICT)", "ICT", "Health", "Energy", "Agriculture", "Environment",
   "Industry & Manufacturing", "Transportation & Mobility", "Education", "Creative Industries",
   "Infrastructure & Real Estate", "Social Impact", "Business & Professional Services"]

/-- `DEFAULT_SECTOR_BY_FC` (src/main.py lines 230-241). -/
def DEFAULT_SECTOR_BY_FC : List (String × String) :=
  [("Investment Firms", "Business & Professional Services"),
   ("Sovereign Wealth Funds", "Business & Professional Services"),
   ("Venture Capital Funds", "Business & Professional Services"),
   ("Angel Investors", "Business & Professional Services"),
   ("Microfinance Institutions", "Business & Professional Services"),
   ("Accelerators", "Business & Professional Services"),
   ("Incubators", "Business & Professional Services"),
   ("Coworking Spaces", "Business & Professional Services"),
   ("Entrepreneurship Support Agencies", "Business & Professional Services"),
   ("Universities & Research Centers", "Education")]

/-- `map_sector_label_for_sheet` (src/main.py lines 225-228, 249-250):
`SECTOR_ALIAS_WRITE.get(s, s)`. -/
def map_sector_label_for_sheet (s : String) : String :=
  if s == "Information & Communication Technology (ICT)" then "ICT"
  else if s == "ICT" then "ICT"
  else s

/-- One item of `_as_string_sector_list`'s list case (src/main.py lines
182-194): a string contributes its nonempty strip; a dict contributes the
first of its `name`/`label`/`value`/`sector` values that is a string with
nonempty strip; any other item contributes `str(item).strip()` if
nonempty. -/
def sector_item_strings : PyVal → List String
  | PyVal.str s => if pyStrip s == "" then [] else [pyStrip s]
  | PyVal.dict d =>
      match (["name", "label", "value", "sector"].filterMap (fun k =>
        match dget d k with
        | Option.some (PyVal.str v) => if pyStrip v == "" then Option.none else Option.some (pyStrip v)
        | _ => Option.none)).head? with
      | Option.some v => [v]
      | Option.none => []
  | item => if pyStrip (pyStr item) == "" then [] else [pyStrip (pyStr item)]

/-- `_as_string_sector_list` (src/main.py lines 171-197). -/
def as_string_sector_list (raw : PyVal) : List String :=
  match raw with
  | PyVal.none => []
  | PyVal.str s => if pyStrip s == "" then [] else [pyStrip s]
  | PyVal.list items => (items.map sector_item_strings).flatten
  | other => if pyStrip (pyStr other) == "" then [] else [pyStrip (pyStr other)]

/-- The template text of `synth_additional_info` (src/main.py lines
206-218).  The Python `T.get(fc) or default` picks the template exactly
when `fc` is a key of `T` (every template is a nonempty string), modelled
by the literal chain below. -/
def synth_text (name region sec_txt fc : String) : String :=
  if fc == "Venture Capital Funds" then
      "A venture capital firm investing across " ++ sec_txt ++ ". " ++ name ++ " backs startups in " ++ region ++ " with funding and strategic support."
    else if fc == "Investment Firms" then
      "An investment firm providing capital and strategic support across " ++ sec_txt ++ ". " ++ name ++ " partners with companies in " ++ region ++ " to scale and optimize operations."
    else if fc == "Angel Investors" then
      "An angel " ++ (if strContains (strToLower name) "network" then "network" else "investor") ++ " backing early-stage startups in " ++ sec_txt ++ ". " ++ name ++ " supports founders in " ++ region ++ " with capital and guidance."
    else if fc == "Microfinance Institutions" then
      "A microfinance institution enabling access to finance for micro and small enterprises. " ++ name ++ " serves entrepreneurs in " ++ region ++ " through tailored credit solutions."
    else if fc == "Accelerators" then
      "An accelerator delivering programs and mentorship for startups. " ++ name ++ " helps founders in " ++ region ++ " validate, build, and grow."
    else if fc == "Incubators" then
      "An incubator providing workspace and hands-on support for early ventures. " ++ name ++ " nurtures entrepreneurs in " ++ region ++ " from idea to startup."
    else if fc == "Sovereign Wealth Funds" then
      "A sovereign wealth fund investing for long-term national value. " ++ name ++ " allocates capital to diversified sectors in " ++ region ++ "."
    else if fc == "Coworking Spaces" then
      "A coworking hub offering flexible workspace and community for entrepreneurs. " ++ name ++ " hosts teams and events in " ++ region ++ "."
    else if fc == "Entrepreneurship Support Agencies" then
      "An ecosystem support organization delivering programs and services for entrepreneurs. " ++ name ++ " promotes startup growth in " ++ region ++ "."
    else if fc == "Universities & Research Centers" then
      "A university/research center fostering innovation and commercialization. " ++ name ++ " supports research-based ventures in " ++ region ++ "."
  else
    "An organization operating across " ++ sec_txt ++ ". " ++ name ++ " supports businesses in " ++ region ++ "."

/-- `synth_additional_info` (src/main.py lines 203-219). -/
def synth_additional_info (name : String) (country : Option String) (fc : String) (sectors : List String) : Option String :=
  let region := match country with
    | Option.some c => if c == "" then "the region" else c
    | Option.none => "the region"
  let sec_txt := if sectors.isEmpty then "key industries" else String.intercalate ", " sectors
  clip (synth_text name region sec_txt fc) 220

/-- Step 1 of `sanitize_record` (src/main.py lines 276-278): substitute the
heuristic classification (default "Investment Firms") when the model's is
missing or blank after stripping.  `Option.none` models the
`AttributeError` raised by `.strip()` when the field holds a truthy
non-string. -/
def fix_fc (record : PyDict) (heuristic_fc : String) : Option PyDict :=
  let fcv := dgetv record "funding_classification"
  let fcv := if truthy fcv then fcv else PyVal.str ""
  match fcv with
  | PyVal.str s =>
      Option.some (if pyStrip s == "" then
        dset record "funding_classification"
          (PyVal.str (if heuristic_fc == "" then "Investment Firms" else heuristic_fc))
      else record)
  | _ => Option.none

/-- Step 2 of `sanitize_record` (src/main.py lines 280-286): derive or clear
`angel_type` depending on the classification. -/
def fix_angel (org : Org) (record : PyDict) : PyDict :=
  if pyEqStr (dgetv record "funding_classification") "Angel Investors" then
    if truthy (dgetv record "angel_type") then record
    else
      let name_lower := (strToLower org.name)
      dset record "angel_type"
        (PyVal.str (if strContains name_lower "network" || strContains name_lower "group" || strContains name_lower "syndicate" then "network" else "individual"))
  else dset record "angel_type" PyVal.none

/-- `DEFAULT_SECTOR_BY_FC.get(classification, "Business & Professional
Services")`.  At its call site the classification is a string (step 1
guarantees it); the non-string default is unreachable. -/
def defaultSectorForFC : PyVal → String
  | PyVal.str s =>
      ((DEFAULT_SECTOR_BY_FC.find? (fun p => p.1 == s)).map (fun p => p.2)).getD "Business & Professional Services"
  | _ => "Business & Professional Services"

/-- The fallback chain of step 3 of `sanitize_record` (src/main.py lines
288-295), as a function of the record's `sectors` value `secv` and
`funding_classification` value `fcv`: model sectors filtered to the
allow-list, else the heuristic inferred sectors filtered the same way, else
the per-classification default. -/
def sectors_choice (secv fcv : PyVal) (inferred_sectors : List String) : List String :=
  let model_secs := (as_string_sector_list secv).filter (fun s => ALLOWED_SECTORS.contains s)
  let model_secs :=
    if model_secs.isEmpty then
      (as_string_sector_list (PyVal.list (inferred_sectors.map PyVal.str))).filter (fun s => ALLOWED_SECTORS.contains s)
    else model_secs
  if model_secs.isEmpty then [defaultSectorForFC fcv] else model_secs

/-- Step 3 of `sanitize_record` (src/main.py lines 288-296): the fallback
chain, then dedup first-seen and cap to 4. -/
def fix_sectors (record : PyDict) (inferred_sectors : List String) : PyDict :=
  dset record "sectors"
    (PyVal.list (((dedupFirst [] (sectors_choice (dgetv record "sectors")
      (dgetv record "funding_classification") inferred_sectors)).take 4).map PyVal.str))

/-- The value written by step 4 of `sanitize_record` (src/main.py lines
298-308), as a function of the record's `additional_info` value `ai`,
`funding_classification` value `fcv` and `sectors` value `secv`: keep the
model's note when it is a string longer than 10 characters after stripping
(clipped to 220), else synthesize one.  At this point in `sanitize_record`,
`fcv` is a string and `secv` a list of strings (steps 1 and 3), so the
`pyStrAsString` defaults are unreachable. -/
def fix_ai_value (org : Org) (ai fcv secv : PyVal) : PyVal :=
  let sheet_sectors :=
    (match secv with
     | PyVal.list xs => xs.map pyStrAsString
     | _ => []).map map_sector_label_for_sheet
  let synthesized :=
    optStrToPy (synth_additional_info org.name org.country (pyStrAsString fcv) sheet_sectors)
  match ai with
  | PyVal.str s =>
      if s != "" && decide (10 < (pyStrip s).length) then optStrToPy (clip s 220)
      else synthesized
  | _ => synthesized

/-- Step 4 of `sanitize_record` (src/main.py lines 298-308). -/
def fix_ai (org : Org) (record : PyDict) : PyDict :=
  dset record "additional_info"
    (fix_ai_value org (dgetv record "additional_info")
      (dgetv record "funding_classification") (dgetv record "sectors"))

/-- Step 5 of `sanitize_record` (src/main.py lines 310-314): clear the
VC-only fields for any other classification. -/
def fix_stages (record : PyDict) : PyDict :=
  if pyEqStr (dgetv record "funding_classification") "Venture Capital Funds" then record
  else
    dset (dset (dset (dset record "stages" (PyVal.list []))
      "ticket_size_usd_min" PyVal.none)
      "ticket_size_usd_max" PyVal.none)
      "ticket_size_currency" PyVal.none

/-- The value written by step 6 of `sanitize_record` (src/main.py lines
316-317), as a function of the record's `sources` value: at most the first
five entries; a non-list (or falsy) value becomes an empty list. -/
def fix_sources_value (srcsv : PyVal) : PyVal :=
  let srcs := if truthy srcsv then srcsv else PyVal.list []
  match srcs with
  | PyVal.list xs => PyVal.list (xs.take 5)
  | _ => PyVal.list []

/-- Step 6 of `sanitize_record` (src/main.py lines 316-317). -/
def fix_sources (record : PyDict) : PyDict :=
  dset record "sources" (fix_sources_value (dgetv record "sources"))

/-- `sanitize_record` (src/main.py lines 275-318), as the composition of its
six steps.  `Option.none` models the one raising point (step 1 on a truthy
non-string classification). -/
def sanitize_record (org : Org) (record : PyDict) (heuristic_fc : String) (inferred_sectors : List String) : Option PyDict :=
  (fix_fc record heuristic_fc).map (fun r =>
    fix_sources (fix_stages (fix_ai org (fix_sectors (fix_angel org r) inferred_sectors))))

/-! ## src/main.py — column normalization and orchestrator fallback -/

/-- The five output columns of `normalize_to_columns` (src/main.py lines
252-269); the configurable column names only rename fields and are
abstracted away. -/
structure NormalizedRow where
  funding_classification : PyVal
  sector : PyVal
  ticket_size_vc : PyVal
  angel_type : PyVal
  note : PyVal

/-- The strings of a Python list value; `Option.none` when joining it would
raise (a non-list where a list is iterated, or a non-string element). -/
def pyStringList? : PyVal → Option (List String)
  | PyVal.list xs => xs.mapM (fun v =>
      match v with
      | PyVal.str s => Option.some s
      | _ => Option.none)
  | _ => Option.none

/-- `normalize_to_columns` (src/main.py lines 252-269).  `Option.none`
models a `TypeError` on malformed field shapes; records produced by
`sanitize_record` never trigger it. -/
def normalize_to_columns (record : PyDict) : Option NormalizedRow := do
  let fc := dgetv record "funding_classification"
  let sectorsRaw := dgetv record "sectors"
  let sectorsRaw := if truthy sectorsRaw then sectorsRaw else PyVal.list []
  let sectors ← pyStringList? sectorsRaw
  let sectors := sectors.map map_sector_label_for_sheet
  let sectorCol := if sectors.isEmpty then PyVal.none else PyVal.str (String.intercalate ", " sectors)
  let stagesRaw := dgetv record "stages"
  let stagesRaw := if truthy stagesRaw then stagesRaw else PyVal.list []
  let stages ← pyStringList? stagesRaw
  let ticketCol :=
    if pyEqStr fc "Venture Capital Funds" && !stages.isEmpty then PyVal.str (String.intercalate ", " stages)
    else PyVal.none
  let angelCol := if pyEqStr fc "Angel Investors" then dgetv record "angel_type" else PyVal.none
  Option.some ⟨fc, sectorCol, ticketCol, angelCol, dgetv record "additional_info"⟩

/-- The heuristic-only record the orchestrator substitutes when the model
call raises (src/main.py lines 496-510). -/
def heuristic_fallback_record (org : Org) (heuristic_fc : String) : PyDict :=
  [("name", PyVal.str org.name),
   ("country", optStrToPy org.country),
   ("website", optStrToPy org.website),
   ("funding_classification", PyVal.str heuristic_fc),
   ("sectors", PyVal.list []),
   ("angel_type", PyVal.none),
   ("ticket_size_usd_min", PyVal.none),
   ("ticket_size_usd_max", PyVal.none),
   ("ticket_size_currency", PyVal.none),
   ("stages", PyVal.list []),
   ("additional_info", PyVal.none),
   ("sources", PyVal.list []),
   ("confidence", PyVal.float 0)]

/-- The orchestrator's path for a row whose search, page fetch and model
call all failed (src/main.py lines 404-514 with `sr = []`, `texts = ∅`,
`joined = ""`): heuristics run on the empty evidence text, the
heuristic-only record is substituted, then sanitized and normalized. -/
def failed_row_columns (org : Org) : Option NormalizedRow := do
  let heuristic_fc := heuristic_funding_classification org.name ""
  let inferred_sectors := infer_sectors_multi ""
  let record ← sanitize_record org (heuristic_fallback_record org heuristic_fc) heuristic_fc inferred_sectors
  normalize_to_columns record

/-! ## src/extract.py — JSON recovery

`json.loads` is modelled by a recursive-descent parser over the character
list, exact for the JSON grammar Python's `json` accepts, with these
documented deviations: `NaN`/`Infinity` literals are not accepted, numbers
with a fraction or exponent are kept as exact rationals instead of rounded
doubles, and `\uXXXX` escapes map the code unit directly to a character
(surrogate pairs are not reassembled).  No verified property depends on
any of these. -/

/-- The two brace characters (written via `Char.ofNat` so that pattern
helpers can name them). -/
def lbrace : Char := Char.ofNat 123

def rbrace : Char := Char.ofNat 125

/-- JSON inter-token whitespace. -/
def isJsonWs (c : Char) : Bool :=
  c = ' ' || c = '\t' || c = '\n' || c = '\r'

/-- Body of a JSON string after the opening quote; `acc` holds the decoded
characters in reverse.  Unescaped control characters are rejected, as in
Python's strict mode. -/
def jsonStringAux : List Char → List Char → Option (String × List Char)
  | [], _ => Option.none
  | c :: rest, acc =>
      if c = '"' then Option.some (String.mk acc.reverse, rest)
      else if c = '\\' then
        match rest with
        | [] => Option.none
        | e :: rest2 =>
            if e = '"' then jsonStringAux rest2 ('"' :: acc)
            else if e = '\\' then jsonStringAux rest2 ('\\' :: acc)
            else if e = '/' then jsonStringAux rest2 ('/' :: acc)
            else if e = 'b' then jsonStringAux rest2 ('\x08' :: acc)
            else if e = 'f' then jsonStringAux rest2 ('\x0c' :: acc)
            else if e = 'n' then jsonStringAux rest2 ('\n' :: acc)
            else if e = 'r' then jsonStringAux rest2 ('\r' :: acc)
            else if e = 't' then jsonStringAux rest2 ('\t' :: acc)
            else if e = 'u' then
              match rest2 with
              | h1 :: h2 :: h3 :: h4 :: rest3 =>
                  match hexVal h1, hexVal h2, hexVal h3, hexVal h4 with
                  | Option.some x1, Option.some x2, Option.some x3, Option.some x4 =>
                      jsonStringAux rest3 (Char.ofNat (((x1 * 16 + x2) * 16 + x3) * 16 + x4) :: acc)
                  | _, _, _, _ => Option.none
              | _ => Option.none
            else Option.none
      else if c.toNat < 32 then Option.none
      else jsonStringAux rest (c :: acc)

/-- Decimal value of a digit list. -/
def natOfDigits (ds : List Char) : Nat :=
  ds.foldl (fun a c => a * 10 + (c.toNat - '0'.toNat)) 0

/-- A JSON number, following the regex Python's `json` scanner uses:
`(-?(?:0|[1-9]\d+|\d))(\.\d+)?([eE][-+]?\d+)?`; an unmatched optional part
is left unconsumed.  Integer literals become `PyVal.int`, anything with a
fraction or exponent becomes an exact-rational `PyVal.float`. -/
def jsonNumber (l : List Char) : Option (PyVal × List Char) :=
  let p := match l with
    | '-' :: r => (true, r)
    | _ => (false, l)
  let neg := p.1
  let l1 := p.2
  let dp := l1.span (fun ch => ch.isDigit)
  let ds := dp.1
  let r1 := dp.2
  if ds.isEmpty then Option.none
  else if 1 < ds.length && ds.head? == Option.some '0' then Option.none
  else
    let ip : Int := (natOfDigits ds : Int)
    let fp : Option (List Char) × List Char := match r1 with
      | '.' :: rr =>
          let q := rr.span (fun ch : Char => ch.isDigit)
          if q.1.isEmpty then (Option.none, r1) else (Option.some q.1, q.2)
      | _ => (Option.none, r1)
    let frac := fp.1
    let r2 := fp.2
    let ep : Option Int × List Char := match r2 with
      | e :: rr =>
          if e = 'e' || e = 'E' then
            let sp : Int × List Char := match rr with
              | '+' :: r3 => (1, r3)
              | '-' :: r3 => (-1, r3)
              | _ => (1, rr)
            let eq2 := sp.2.span (fun ch : Char => ch.isDigit)
            if eq2.1.isEmpty then (Option.none, r2)
            else (Option.some (sp.1 * (natOfDigits eq2.1 : Int)), eq2.2)
          else (Option.none, r2)
      | [] => (Option.none, r2)
    let expo : Option Int := ep.1
    let r3 := ep.2
    match frac, expo with
    | Option.none, Option.none => Option.some (PyVal.int (if neg then -ip else ip), r3)
    | _, _ =>
        let fds := frac.getD []
        let mant : Int := ip * ((10 : Int) ^ fds.length) + (natOfDigits fds : Int)
        let q : Rat := ((mant : Rat) / ((10 : Rat) ^ fds.length)) * ((10 : Rat) ^ ((expo.getD 0 : Int)))
        Option.some (PyVal.float (if neg then -q else q), r3)

mutual

/-- A JSON value, fuel-bounded (fuel strictly decreases on every nested
parse; `length + 2` fuel always suffices since each recursion consumes at
least one character). -/
def jsonValue : Nat → List Char → Option (PyVal × List Char)
  | 0, _ => Option.none
  | Nat.succ fuel, l =>
      let l := l.dropWhile isJsonWs
      match l with
      | [] => Option.none
      | c :: rest =>
          if c = '"' then (jsonStringAux rest []).map (fun p => (PyVal.str p.1, p.2))
          else if c = lbrace then
            let rest := rest.dropWhile isJsonWs
            match rest with
            | c2 :: r2 => if c2 = rbrace then Option.some (PyVal.dict [], r2) else jsonMembers fuel rest []
            | [] => Option.none
          else if c = '[' then
            let rest := rest.dropWhile isJsonWs
            match rest with
            | c2 :: r2 => if c2 = ']' then Option.some (PyVal.list [], r2) else jsonElems fuel rest []
            | [] => Option.none
          else if c = 'n' then
            match rest with
            | 'u' :: 'l' :: 'l' :: r => Option.some (PyVal.none, r)
            | _ => Option.none
          else if c = 't' then
            match rest with
            | 'r' :: 'u' :: 'e' :: r => Option.some (PyVal.bool true, r)
            | _ => Option.none
          else if c = 'f' then
            match rest with
            | 'a' :: 'l' :: 's' :: 'e' :: r => Option.some (PyVal.bool false, r)
            | _ => Option.none
          else jsonNumber l

/-- Array elements from the start of the first element; `acc` holds the
ones already parsed. -/
def jsonElems : Nat → List Char → List PyVal → Option (PyVal × List Char)
  | 0, _, _ => Option.none
  | Nat.succ fuel, l, acc =>
      match jsonValue fuel l with
      | Option.none => Option.none
      | Option.some (v, r) =>
          match r.dropWhile isJsonWs with
          | ',' :: r2 => jsonElems fuel r2 (acc ++ [v])
          | c :: r2 => if c = ']' then Option.some (PyVal.list (acc ++ [v]), r2) else Option.none
          | [] => Option.none

/-- Object members from the start of the first key; `acc` holds the pairs
already parsed (`dset` reproduces `dict(pairs)`: a duplicate key keeps its
first position and its last value, as `json.loads` does). -/
def jsonMembers : Nat → List Char → List (String × PyVal) → Option (PyVal × List Char)
  | 0, _, _ => Option.none
  | Nat.succ fuel, l, acc =>
      match l with
      | '"' :: kr =>
          match jsonStringAux kr [] with
          | Option.none => Option.none
          | Option.some (k, r) =>
              match r.dropWhile isJsonWs with
              | ':' :: r2 =>
                  match jsonValue fuel r2 with
                  | Option.none => Option.none
                  | Option.some (v, r3) =>
                      match r3.dropWhile isJsonWs with
                      | ',' :: r4 => jsonMembers fuel (r4.dropWhile isJsonWs) (dset acc k v)
                      | c :: r4 => if c = rbrace then Option.some (PyVal.dict (dset acc k v), r4) else Option.none
                      | [] => Option.none
              | _ => Option.none
      | _ => Option.none

end

/-- `json.loads(s)`: one JSON document, with only whitespace around it. -/
def json_loads (s : String) : Option PyVal :=
  match jsonValue (s.length + 2) s.data with
  | Option.some (v, rest) => if (rest.dropWhile isJsonWs).isEmpty then Option.some v else Option.none
  | Option.none => Option.none

/-- `re.search(r'\x7b.*\x7d', out, re.S)` (src/extract.py lines 192-193):
the greedy DOTALL match runs from the first opening brace to the last
closing brace of the whole text, and exists precisely when some closing
brace lies strictly after the first opening brace. -/
def brace_substring (s : String) : Option String :=
  let l := s.data
  match l.findIdx? (fun c => c = lbrace) with
  | Option.none => Option.none
  | Option.some i =>
      match l.reverse.findIdx? (fun c => c = rbrace) with
      | Option.none => Option.none
      | Option.some jr =>
          let j := l.length - 1 - jr
          if i < j then Option.some (String.mk ((l.take (j + 1)).drop i)) else Option.none

/-- The truncated raw snippet carried by the fallback record
(src/extract.py lines 201-203). -/
def fallback_snippet (out : String) : String :=
  let snippet := pyStrip out
  if 400 < snippet.length then pyTake snippet 400 ++ "..." else snippet

/-- The structured fallback record (src/extract.py lines 204-218). -/
def raw_fallback_record (org : Org) (out : String) : PyVal :=
  PyVal.dict
    [("name", PyVal.str org.name),
     ("country", optStrToPy org.country),
     ("website", optStrToPy org.website),
     ("classification", PyVal.none),
     ("sectors", PyVal.list []),
     ("angel_type", PyVal.none),
     ("ticket_size_usd_min", PyVal.none),
     ("ticket_size_usd_max", PyVal.none),
     ("ticket_size_currency", PyVal.none),
     ("stages", PyVal.list []),
     ("notes", PyVal.str ("Model returned non-JSON. Raw snippet: " ++ fallback_snippet out)),
     ("sources", PyVal.list []),
     ("confidence", PyVal.float 0)]

/-- The parsing phase of `extract_record` (src/extract.py lines 187-218),
once the provider has returned the raw text `out` (the network call itself
is not modelled).  Python returns whatever `json.loads` produced — any JSON
value — hence the `PyVal` result; the surrounding `try/except` chain means
this phase never raises. -/
def extract_record_from_raw (org : Org) (out : String) : PyVal :=
  match json_loads out with
  | Option.some v => v
  | Option.none =>
      match brace_substring out with
      | Option.some sub =>
          match json_loads sub with
          | Option.some v => v
          | Option.none => raw_fallback_record org out
      | Option.none => raw_fallback_record org out

/-! ## Concrete instances used by witnesses and counterexamples -/

/-- A minimal organization. -/
def org0 : Org := ⟨"Acme", Option.none, Option.none⟩

/-- The sanitized record obtained from `org0`, the empty model record, an
empty heuristic classification and no inferred sectors. -/
def r0out : PyDict :=
  [("funding_classification", PyVal.str "Investment Firms"),
   ("angel_type", PyVal.none),
   ("sectors", PyVal.list [PyVal.str "Business & Professional Services"]),
   ("additional_info", PyVal.str "An investment firm providing capital and strategic support across Business & Professional Services. Acme partners with companies in the region to scale and optimize operations."),
   ("stages", PyVal.list []),
   ("ticket_size_usd_min", PyVal.none),
   ("ticket_size_usd_max", PyVal.none),
   ("ticket_size_currency", PyVal.none),
   ("sources", PyVal.list [])]

/-- The DuckDuckGo redirect href used by the spec's own example. -/
def ddg_href : String := "https://duckduckgo.com/l/?uddg=https%3A%2F%2Fexample.org%2F&rut=x"

/-- The raw model output of the spec's extraction example. -/
def c7raw : String := "Here is the data: \x7b\"name\":\"X\",\"funding_classification\":\"Accelerators\"\x7d extra"

/-- A model record with two keys the sanitizer never writes. -/
def rec10 : PyDict := [("name", PyVal.str "Acme"), ("notes", PyVal.str "keep me")]

/-- The sanitized record obtained from `org0` and `rec10`. -/
def r10out : PyDict :=
  [("name", PyVal.str "Acme"),
   ("notes", PyVal.str "keep me"),
   ("funding_classification", PyVal.str "Investment Firms"),
   ("angel_type", PyVal.none),
   ("sectors", PyVal.list [PyVal.str "Business & Professional Services"]),
   ("additional_info", PyVal.str "An investment firm providing capital and strategic support across Business & Professional Services. Acme partners with companies in the region to scale and optimize operations."),
   ("stages", PyVal.list []),
   ("ticket_size_usd_min", PyVal.none),
   ("ticket_size_usd_max", PyVal.none),
   ("ticket_size_currency", PyVal.none),
   ("sources", PyVal.list [])]

/-- The record `extract_record_from_raw` recovers from `c7raw`. -/
def c7out : PyVal :=
  PyVal.dict [("name", PyVal.str "X"), ("funding_classification", PyVal.str "Accelerators")]

/-- "Every entry of `d` with key `k` carries value `v`, and one exists":
the state of a key after `d[k] = v`, stable under writes to other keys. -/
def KeyAll (d : PyDict) (k : String) (v : PyVal) : Prop :=
  d.any (fun p => p.1 == k) = true ∧ ∀ p ∈ d, p.1 = k → p.2 = v

/-! ## Dictionary lemmas -/

theorem dget_cons (a : String × PyVal) (t : PyDict) (k : String) :
    dget (a :: t) k = if a.1 == k then Option.some a.2 else dget t k := by
  by_cases h : a.1 = k
  · simp [dget, List.find?_cons_of_pos, h]
  · simp [dget, List.find?_cons_of_neg, h]

theorem dget_map_set (d : PyDict) (k : String) (v : PyVal)
    (h : d.any (fun p => p.1 == k) = true) :
    dget (d.map (fun p => if p.1 == k then (k, v) else p)) k = Option.some v := by
  induction d with
  | nil => simp at h
  | cons a t ih =>
      by_cases ha : a.1 = k
      · simp [dget_cons, ha]
      · have ht : t.any (fun p => p.1 == k) = true := by
          simpa [List.any_cons, ha] using h
        simpa [dget_cons, ha] using ih ht

theorem dget_append_right (d : PyDict) (k : String) (v : PyVal)
    (h : d.any (fun p => p.1 == k) = false) :
    dget (d ++ [(k, v)]) k = Option.some v := by
  induction d with
  | nil => simp [dget]
  | cons a t ih =>
      have ha : a.1 ≠ k := by
        intro hc
        simp [List.any_cons, hc] at h
      have ht : t.any (fun p => p.1 == k) = false := by
        simpa [List.any_cons, ha] using h
      simpa [dget_cons, ha] using ih ht

theorem dget_dset_self (d : PyDict) (k : String) (v : PyVal) :
    dget (dset d k v) k = Option.some v := by
  unfold dset
  split
  next h => exact dget_map_set d k v h
  next h =>
    simp only [Bool.not_eq_true] at h
    exact dget_append_right d k v h

theorem dget_map_set_ne (d : PyDict) (k k2 : String) (v : PyVal) (h : k2 ≠ k) :
    dget (d.map (fun p => if p.1 == k then (k, v) else p)) k2 = dget d k2 := by
  induction d with
  | nil => simp
  | cons a t ih =>
      by_cases ha : a.1 = k
      · have h1 : a.1 ≠ k2 := by rw [ha]; exact Ne.symm h
        simp [dget_cons, ha, h1, Ne.symm h]
        simpa using ih
      · by_cases hb : a.1 = k2
        · simp [dget_cons, ha, hb, h]
        · simp [dget_cons, ha, hb]
          simpa using ih

theorem dget_append_ne (d : PyDict) (k k2 : String) (v : PyVal) (h : k2 ≠ k) :
    dget (d ++ [(k, v)]) k2 = dget d k2 := by
  have h2 : (k == k2) = false := by simpa using Ne.symm h
  simp [dget, List.find?_append, h2]

theorem dget_dset_ne (d : PyDict) (k k2 : String) (v : PyVal) (h : k2 ≠ k) :
    dget (dset d k v) k2 = dget d k2 := by
  unfold dset
  split
  next => exact dget_map_set_ne d k k2 v h
  next => exact dget_append_ne d k k2 v h

theorem any_key_of_dget (d : PyDict) (k : String) (v : PyVal) (h : dget d k = Option.some v) :
    d.any (fun p => p.1 == k) = true := by
  induction d with
  | nil => simp [dget] at h
  | cons a t ih =>
      rw [dget_cons] at h
      by_cases ha : a.1 = k
      · simp [List.any_cons, ha]
      · simp only [List.any_cons]
        simp [ha] at h
        simp [ha, ih h]

theorem dget_of_KeyAll (d : PyDict) (k : String) (v : PyVal) (h : KeyAll d k v) :
    dget d k = Option.some v := by
  induction d with
  | nil => simp [KeyAll] at h
  | cons a t ih =>
      obtain ⟨h1, h2⟩ := h
      rw [dget_cons]
      by_cases ha : a.1 = k
      · simpa [ha] using h2 a (List.mem_cons_self a t) ha
      · rw [if_neg (show ¬ ((a.1 == k) = true) by simpa using ha)]
        exact ih ⟨by simpa [List.any_cons, ha] using h1,
          fun p hp hk => h2 p (List.mem_cons_of_mem a hp) hk⟩

theorem KeyAll_dset_self (d : PyDict) (k : String) (v : PyVal) :
    KeyAll (dset d k v) k v := by
  constructor
  · exact any_key_of_dget _ _ _ (dget_dset_self d k v)
  · intro p hp hk
    unfold dset at hp
    split at hp
    next hany =>
      obtain ⟨a, ha, rfl⟩ := List.mem_map.mp hp
      by_cases hak : a.1 = k
      · simp [hak]
      · simp [hak] at hk
    next hany =>
      rcases List.mem_append.mp hp with hd | hd
      · exact absurd (List.any_eq_true.mpr ⟨p, hd, by simpa using hk⟩) hany
      · have hpe := List.mem_singleton.mp hd
        subst hpe
        rfl

theorem KeyAll_dset_ne (d : PyDict) (k k2 : String) (v w : PyVal) (hne : k ≠ k2)
    (h : KeyAll d k v) : KeyAll (dset d k2 w) k v := by
  constructor
  · exact any_key_of_dget _ _ _ (by
      rw [dget_dset_ne d k2 k w hne]
      exact dget_of_KeyAll d k v h)
  · intro p hp hk
    unfold dset at hp
    split at hp
    next hany =>
      obtain ⟨a, ha, rfl⟩ := List.mem_map.mp hp
      by_cases hak : a.1 = k2
      · simp [hak] at hk
        exact absurd hk (Ne.symm hne)
      · simp [hak] at hk ⊢
        exact h.2 a ha hk
    next hany =>
      rcases List.mem_append.mp hp with hd | hd
      · exact h.2 p hd hk
      · have hpe := List.mem_singleton.mp hd
        subst hpe
        exact absurd hk (Ne.symm hne)

theorem dset_eq_of_KeyAll (d : PyDict) (k : String) (v : PyVal) (h : KeyAll d k v) :
    dset d k v = d := by
  unfold dset
  rw [if_pos h.1]
  have hcong : ∀ p ∈ d, (if p.1 == k then (k, v) else p) = id p := by
    intro p hp
    by_cases hk : p.1 = k
    · have hv := h.2 p hp hk
      simp [hk]
      rw [← hk, ← hv]
    · simp [hk]
  rw [List.map_congr_left hcong, List.map_id]

/-! ## Per-stage key tracking -/

theorem dget_fix_angel_ne (org : Org) (d : PyDict) (k : String) (h : k ≠ "angel_type") :
    dget (fix_angel org d) k = dget d k := by
  unfold fix_angel
  by_cases h1 : pyEqStr (dgetv d "funding_classification") "Angel Investors"
  · rw [if_pos h1]
    by_cases h2 : truthy (dgetv d "angel_type")
    · rw [if_pos h2]
    · rw [if_neg h2]
      exact dget_dset_ne _ _ _ _ h
  · rw [if_neg h1]
    exact dget_dset_ne _ _ _ _ h

theorem dget_fix_sectors_ne (d : PyDict) (s : List String) (k : String) (h : k ≠ "sectors") :
    dget (fix_sectors d s) k = dget d k :=
  dget_dset_ne _ _ _ _ h

theorem dget_fix_ai_ne (org : Org) (d : PyDict) (k : String) (h : k ≠ "additional_info") :
    dget (fix_ai org d) k = dget d k :=
  dget_dset_ne _ _ _ _ h

theorem dget_fix_stages_ne (d : PyDict) (k : String) (h1 : k ≠ "stages")
    (h2 : k ≠ "ticket_size_usd_min") (h3 : k ≠ "ticket_size_usd_max")
    (h4 : k ≠ "ticket_size_currency") :
    dget (fix_stages d) k = dget d k := by
  unfold fix_stages
  by_cases hvc : pyEqStr (dgetv d "funding_classification") "Venture Capital Funds"
  · rw [if_pos hvc]
  · rw [if_neg hvc]
    rw [dget_dset_ne _ _ _ _ h4, dget_dset_ne _ _ _ _ h3, dget_dset_ne _ _ _ _ h2,
      dget_dset_ne _ _ _ _ h1]

theorem dget_fix_sources_ne (d : PyDict) (k : String) (h : k ≠ "sources") :
    dget (fix_sources d) k = dget d k :=
  dget_dset_ne _ _ _ _ h

theorem KeyAll_fix_angel (org : Org) (d : PyDict) (k : String) (v : PyVal)
    (h : k ≠ "angel_type") (hk : KeyAll d k v) : KeyAll (fix_angel org d) k v := by
  unfold fix_angel
  by_cases h1 : pyEqStr (dgetv d "funding_classification") "Angel Investors"
  · rw [if_pos h1]
    by_cases h2 : truthy (dgetv d "angel_type")
    · rw [if_pos h2]; exact hk
    · rw [if_neg h2]
      exact KeyAll_dset_ne _ _ _ _ _ h hk
  · rw [if_neg h1]
    exact KeyAll_dset_ne _ _ _ _ _ h hk

theorem KeyAll_fix_sectors (d : PyDict) (s : List String) (k : String) (v : PyVal)
    (h : k ≠ "sectors") (hk : KeyAll d k v) : KeyAll (fix_sectors d s) k v :=
  KeyAll_dset_ne _ _ _ _ _ h hk

theorem KeyAll_fix_ai (org : Org) (d : PyDict) (k : String) (v : PyVal)
    (h : k ≠ "additional_info") (hk : KeyAll d k v) : KeyAll (fix_ai org d) k v :=
  KeyAll_dset_ne _ _ _ _ _ h hk

theorem KeyAll_fix_stages (d : PyDict) (k : String) (v : PyVal) (h1 : k ≠ "stages")
    (h2 : k ≠ "ticket_size_usd_min") (h3 : k ≠ "ticket_size_usd_max")
    (h4 : k ≠ "ticket_size_currency") (hk : KeyAll d k v) : KeyAll (fix_stages d) k v := by
  unfold fix_stages
  by_cases hvc : pyEqStr (dgetv d "funding_classification") "Venture Capital Funds"
  · rw [if_pos hvc]; exact hk
  · rw [if_neg hvc]
    exact KeyAll_dset_ne _ _ _ _ _ h4 (KeyAll_dset_ne _ _ _ _ _ h3
      (KeyAll_dset_ne _ _ _ _ _ h2 (KeyAll_dset_ne _ _ _ _ _ h1 hk)))

theorem KeyAll_fix_sources (d : PyDict) (k : String) (v : PyVal)
    (h : k ≠ "sources") (hk : KeyAll d k v) : KeyAll (fix_sources d) k v :=
  KeyAll_dset_ne _ _ _ _ _ h hk

theorem fix_fc_spec (record : PyDict) (h : String) (r1 : PyDict)
    (hfx : fix_fc record h = Option.some r1) :
    ∃ fcs : String, dget r1 "funding_classification" = Option.some (PyVal.str fcs) ∧ fcs ≠ "" ∧
      ((pyStrip fcs ≠ "" ∧ r1 = record) ∨
       (fcs = (if h == "" then "Investment Firms" else h) ∧
        r1 = dset record "funding_classification" (PyVal.str fcs))) := by
  simp only [fix_fc] at hfx
  by_cases ht : truthy (dgetv record "funding_classification")
  · rw [if_pos ht] at hfx
    cases hv : dgetv record "funding_classification" with
    | str s =>
        rw [hv] at hfx ht
        have hr := (Option.some.inj hfx).symm
        by_cases hs : (pyStrip s == "") = true
        · rw [if_pos hs] at hr
          refine ⟨if h == "" then "Investment Firms" else h, ?_, ?_, Or.inr ⟨rfl, hr⟩⟩
          · rw [hr]; exact dget_dset_self _ _ _
          · by_cases hh : (h == "") = true
            · simp [hh]
            · simp only [hh, if_neg]
              simp at hh
              simpa using hh
        · rw [if_neg hs] at hr
          have hS : pyStrip s ≠ "" := by simpa using hs
          have hdget : dget record "funding_classification" = Option.some (PyVal.str s) := by
            unfold dgetv at hv
            cases hd : dget record "funding_classification" with
            | none => rw [hd] at hv; simp at hv
            | some w => rw [hd] at hv; simpa using hv
          refine ⟨s, hr ▸ hdget, ?_, Or.inl ⟨hS, hr⟩⟩
          intro hc
          subst hc
          exact hS (by decide)
    | none => rw [hv] at hfx; simp at hfx
    | bool b => rw [hv] at hfx; simp at hfx
    | int n => rw [hv] at hfx; simp at hfx
    | float q => rw [hv] at hfx; simp at hfx
    | list xs => rw [hv] at hfx; simp at hfx
    | dict xs => rw [hv] at hfx; simp at hfx
  · rw [if_neg ht] at hfx
    have hstrip : (pyStrip "" == "") = true := by decide
    have hfx2 : Option.some (if (pyStrip "" == "") = true then
        dset record "funding_classification"
          (PyVal.str (if (h == "") = true then "Investment Firms" else h))
      else record) = Option.some r1 := hfx
    rw [if_pos hstrip] at hfx2
    have hr := (Option.some.inj hfx2).symm
    refine ⟨if h == "" then "Investment Firms" else h, ?_, ?_, Or.inr ⟨rfl, hr⟩⟩
    · rw [hr]; exact dget_dset_self _ _ _
    · by_cases hh : (h == "") = true
      · simp [hh]
      · simp only [hh, if_neg]
        simp at hh
        simpa using hh

/-! ## Strip and clip lemmas -/

theorem dropWhile_head_not (p : Char → Bool) (l : List Char) (a : Char)
    (h : (l.dropWhile p).head? = Option.some a) : p a = false := by
  induction l with
  | nil => simp at h
  | cons c t ih =>
      rw [List.dropWhile_cons] at h
      by_cases hc : p c
      · rw [if_pos hc] at h
        exact ih h
      · rw [if_neg hc] at h
        simp at h
        subst h
        simpa using hc

theorem dropWhile_eq_self_of_head (p : Char → Bool) (l : List Char)
    (h : ∀ a, l.head? = Option.some a → p a = false) : l.dropWhile p = l := by
  cases l with
  | nil => rfl
  | cons c t => rw [List.dropWhile_cons, if_neg (by simp [h c rfl])]

theorem pyStripL_head_not (l : List Char) (a : Char)
    (h : (pyStripL l).head? = Option.some a) : isPySpace a = false := by
  unfold pyStripL at h
  rw [List.head?_reverse] at h
  have hx : ((l.dropWhile isPySpace).reverse.dropWhile isPySpace) ≠ [] := by
    intro hc
    rw [hc] at h
    simp at h
  obtain ⟨pre, hpre⟩ := List.dropWhile_suffix (l := (l.dropWhile isPySpace).reverse) isPySpace
  have hlast : ((l.dropWhile isPySpace).reverse).getLast? = Option.some a := by
    rw [← hpre, List.getLast?_append_of_ne_nil _ hx]
    exact h
  rw [List.getLast?_reverse] at hlast
  exact dropWhile_head_not _ _ _ hlast

theorem pyStripL_last_not (l : List Char) (a : Char)
    (h : (pyStripL l).getLast? = Option.some a) : isPySpace a = false := by
  unfold pyStripL at h
  rw [List.getLast?_reverse] at h
  exact dropWhile_head_not _ _ _ h

theorem pyStripL_eq_self (l : List Char)
    (h1 : ∀ a, l.head? = Option.some a → isPySpace a = false)
    (h2 : ∀ a, l.getLast? = Option.some a → isPySpace a = false) : pyStripL l = l := by
  unfold pyStripL
  rw [dropWhile_eq_self_of_head _ _ h1]
  rw [dropWhile_eq_self_of_head _ _ (fun a ha => h2 a (by rwa [List.head?_reverse] at ha))]
  exact List.reverse_reverse l

theorem pyStripL_idem (l : List Char) : pyStripL (pyStripL l) = pyStripL l :=
  pyStripL_eq_self _ (fun a ha => pyStripL_head_not l a ha)
    (fun a ha => pyStripL_last_not l a ha)

theorem pyStripL_ne_nil (l : List Char) (a : Char)
    (hh : l.head? = Option.some a) (ha : isPySpace a = false) : pyStripL l ≠ [] := by
  unfold pyStripL
  intro hc
  have hx : (l.dropWhile isPySpace).reverse.dropWhile isPySpace = [] := by
    have := congrArg List.reverse hc
    simpa using this
  have hall := List.dropWhile_eq_nil_iff.mp hx
  have hl : l.dropWhile isPySpace = l := by
    refine dropWhile_eq_self_of_head _ _ (fun b hb => ?_)
    rw [hh] at hb
    cases hb
    exact ha
  rw [hl] at hall
  cases l with
  | nil => simp at hh
  | cons c t =>
      have hca : c = a := by simpa using hh
      subst hca
      have hmem : c ∈ (c :: t).reverse := by simp
      simpa [ha] using hall c hmem

theorem string_eq_empty_iff (s : String) : s = "" ↔ s.data = [] := by
  rw [String.ext_iff]

theorem pyStrip_idem (s : String) : pyStrip (pyStrip s) = pyStrip s :=
  congrArg String.mk (pyStripL_idem s.data)

theorem trunc_data (u : String) (n : Nat) :
    (pyTake u n ++ "...").data = u.data.take n ++ '.' :: '.' :: '.' :: [] := by
  rw [String.data_append]
  rfl

theorem trunc_length (u : String) (n : Nat) (h : n < u.length) :
    (pyTake u n ++ "...").length = n + 3 := by
  show ((pyTake u n ++ "...").data).length = n + 3
  rw [trunc_data, List.length_append, List.length_take]
  have hmin : min n u.data.length = n := Nat.min_eq_left (Nat.le_of_lt h)
  rw [hmin]
  rfl

theorem head?_append_left (l₁ l₂ : List Char) (c : Char) (h : l₁.head? = Option.some c) :
    (l₁ ++ l₂).head? = Option.some c := by
  cases l₁ with
  | nil => simp at h
  | cons a t => simpa using h

theorem head?_of_head?_take (l : List Char) (n : Nat) (c : Char)
    (h : (l.take n).head? = Option.some c) : l.head? = Option.some c := by
  cases l with
  | nil => simp at h
  | cons a t =>
      cases n with
      | zero => simp at h
      | succ m => simpa using h

theorem clip_some_spec (s t : String) (n : Nat) (h : clip s n = Option.some t) :
    s ≠ "" ∧
    ((¬ n < (pyStrip s).length ∧ t = pyStrip s) ∨
     (n < (pyStrip s).length ∧ t = pyTake (pyStrip s) n ++ "...")) := by
  unfold clip at h
  by_cases hs : (s == "") = true
  · rw [if_pos hs] at h
    simp at h
  · rw [if_neg hs] at h
    have ht := (Option.some.inj h).symm
    refine ⟨by simpa using hs, ?_⟩
    by_cases hn : n < (pyStrip s).length
    · right
      exact ⟨hn, by rwa [if_pos hn] at ht⟩
    · left
      exact ⟨hn, by rwa [if_neg hn] at ht⟩

theorem clip_some_head (s t : String) (n : Nat) (h : clip s n = Option.some t) :
    (∀ a, t.data.head? = Option.some a → isPySpace a = false) ∧
    (∀ a, t.data.getLast? = Option.some a → isPySpace a = false) := by
  obtain ⟨hs, hcase⟩ := clip_some_spec s t n h
  rcases hcase with ⟨hn, rfl⟩ | ⟨hn, rfl⟩
  · exact ⟨fun a ha => pyStripL_head_not s.data a ha,
      fun a ha => pyStripL_last_not s.data a ha⟩
  · constructor
    · intro a ha
      rw [trunc_data] at ha
      cases hu : (pyStrip s).data.take n with
      | nil =>
          rw [hu] at ha
          simp at ha
          subst ha
          decide
      | cons c cs =>
          rw [hu] at ha
          simp at ha
          subst ha
          have hh2 : (List.take n ((pyStrip s).data)).head? = Option.some c := by rw [hu]; rfl
          exact pyStripL_head_not s.data _ (head?_of_head?_take _ n _ hh2)
    · intro a ha
      rw [trunc_data, List.getLast?_append_of_ne_nil _ (by simp)] at ha
      simp at ha
      subst ha
      decide

theorem clip_strip_self (s t : String) (n : Nat) (h : clip s n = Option.some t) :
    pyStrip t = t := by
  obtain ⟨hh, hl⟩ := clip_some_head s t n h
  show String.mk (pyStripL t.data) = t
  rw [pyStripL_eq_self t.data hh hl]

theorem clip_clip (s t : String) (n : Nat) (h : clip s n = Option.some t) (ht : t ≠ "") :
    clip t n = Option.some t := by
  obtain ⟨hs, hcase⟩ := clip_some_spec s t n h
  have hstrip : pyStrip t = t := clip_strip_self s t n h
  unfold clip
  rw [if_neg (by simpa using ht)]
  show Option.some (if n < (pyStrip t).length then pyTake (pyStrip t) n ++ "..." else pyStrip t) =
    Option.some t
  rw [hstrip]
  rcases hcase with ⟨hn, heq⟩ | ⟨hn, heq⟩
  · have hn2 : ¬ n < t.length := by rw [heq]; exact hn
    rw [if_neg hn2]
  · have hlen : t.length = n + 3 := by rw [heq]; exact trunc_length _ _ hn
    rw [if_pos (by omega)]
    have htake : pyTake t n = pyTake (pyStrip s) n := by
      rw [heq]
      show String.mk ((pyTake (pyStrip s) n ++ "...").data.take n) = pyTake (pyStrip s) n
      rw [trunc_data]
      exact congrArg String.mk (List.take_left'
        (by rw [List.length_take]; exact Nat.min_eq_left (Nat.le_of_lt hn)))
    rw [htake, heq]

theorem clip_length_le (s t : String) (n : Nat) (h : clip s n = Option.some t) :
    t.length ≤ n + 3 := by
  obtain ⟨hs, hcase⟩ := clip_some_spec s t n h
  rcases hcase with ⟨hn, rfl⟩ | ⟨hn, rfl⟩
  · have := Nat.le_of_not_lt hn
    omega
  · rw [trunc_length _ _ hn]

theorem clip_ne_empty (s t : String) (n : Nat) (h : clip s n = Option.some t)
    (c : Char) (hh : s.data.head? = Option.some c) (hc : isPySpace c = false) : t ≠ "" := by
  obtain ⟨hs, hcase⟩ := clip_some_spec s t n h
  rcases hcase with ⟨hn, rfl⟩ | ⟨hn, rfl⟩
  · intro he
    rw [string_eq_empty_iff] at he
    exact pyStripL_ne_nil s.data c hh hc he
  · intro he
    rw [string_eq_empty_iff, trunc_data] at he
    simp at he

theorem clip220_fix (s t : String) (h : clip s 220 = Option.some t)
    (h10 : 10 < (pyStrip s).length) :
    t ≠ "" ∧ 10 < (pyStrip t).length ∧ clip t 220 = Option.some t := by
  obtain ⟨hs, hcase⟩ := clip_some_spec s t 220 h
  have ht : t ≠ "" := by
    rcases hcase with ⟨hn, heq⟩ | ⟨hn, heq⟩
    · intro hc
      rw [hc] at heq
      have hlen0 : (pyStrip s).length = 0 := by rw [← heq]; rfl
      omega
    · intro hc
      rw [heq, string_eq_empty_iff, trunc_data] at hc
      simp at hc
  have hstrip : pyStrip t = t := clip_strip_self s t 220 h
  refine ⟨ht, ?_, clip_clip s t 220 h ht⟩
  rw [hstrip]
  rcases hcase with ⟨hn, rfl⟩ | ⟨hn, rfl⟩
  · exact h10
  · rw [show (pyTake (pyStrip s) 220 ++ "...").length = 220 + 3 from trunc_length _ _ hn]
    omega

/-! ## Sector pipeline lemmas -/

theorem dedupFirst_mem (seen l : List String) (x : String)
    (h : x ∈ dedupFirst seen l) : x ∈ l := by
  induction l generalizing seen with
  | nil => simp [dedupFirst] at h
  | cons a t ih =>
      unfold dedupFirst at h
      by_cases ha : seen.contains a
      · rw [if_pos ha] at h
        exact List.mem_cons_of_mem a (ih _ h)
      · rw [if_neg ha] at h
        rcases List.mem_cons.mp h with rfl | hm
        · exact List.mem_cons_self _ _
        · exact List.mem_cons_of_mem a (ih _ hm)

theorem dedupFirst_spec (seen l : List String) :
    (dedupFirst seen l).Nodup ∧ ∀ x ∈ dedupFirst seen l, x ∉ seen := by
  induction l generalizing seen with
  | nil => exact ⟨by simp [dedupFirst], by simp [dedupFirst]⟩
  | cons a t ih =>
      unfold dedupFirst
      by_cases ha : seen.contains a
      · rw [if_pos ha]
        exact ih seen
      · rw [if_neg ha]
        obtain ⟨hnd, hns⟩ := ih (a :: seen)
        constructor
        · refine List.nodup_cons.mpr ⟨?_, hnd⟩
          intro hm
          exact (hns a hm) (List.mem_cons_self a seen)
        · intro x hx
          rcases List.mem_cons.mp hx with rfl | hm
          · intro hc
            exact ha (List.elem_iff.mpr hc)
          · intro hc
            exact hns x hm (List.mem_cons_of_mem a hc)

theorem dedupFirst_eq_self (seen l : List String) (hnd : l.Nodup)
    (hdisj : ∀ x ∈ l, x ∉ seen) : dedupFirst seen l = l := by
  induction l generalizing seen with
  | nil => rfl
  | cons a t ih =>
      unfold dedupFirst
      have ha : ¬ (seen.contains a = true) :=
        fun hc => hdisj a (List.mem_cons_self a t) (List.elem_iff.mp hc)
      rw [if_neg ha]
      congr 1
      refine ih (a :: seen) (List.nodup_cons.mp hnd).2 ?_
      intro x hx hc
      rcases List.mem_cons.mp hc with rfl | hm
      · exact (List.nodup_cons.mp hnd).1 hx
      · exact hdisj x (List.mem_cons_of_mem a hx) hm

theorem dedupFirst_nil_ne_nil (l : List String) (h : l ≠ []) : dedupFirst [] l ≠ [] := by
  cases l with
  | nil => exact absurd rfl h
  | cons a t =>
      unfold dedupFirst
      rw [if_neg (by simp)]
      simp

theorem take4_ne_nil (l : List String) (h : l ≠ []) : l.take 4 ≠ [] := by
  cases l with
  | nil => exact absurd rfl h
  | cons a t => simp

theorem allowed_strip_facts : ∀ x ∈ ALLOWED_SECTORS, pyStrip x = x ∧ x ≠ "" := by decide

theorem default_table_allowed : ∀ p ∈ DEFAULT_SECTOR_BY_FC, p.2 ∈ ALLOWED_SECTORS := by decide

theorem bps_allowed : "Business & Professional Services" ∈ ALLOWED_SECTORS := by decide

theorem defaultSector_allowed (v : PyVal) : defaultSectorForFC v ∈ ALLOWED_SECTORS := by
  cases v with
  | str s =>
      show ((DEFAULT_SECTOR_BY_FC.find? (fun p => p.1 == s)).map (fun p => p.2)).getD
        "Business & Professional Services" ∈ ALLOWED_SECTORS
      cases hf : DEFAULT_SECTOR_BY_FC.find? (fun p => p.1 == s) with
      | none => simpa using bps_allowed
      | some p => simpa using default_table_allowed p (List.mem_of_find?_eq_some hf)
  | none => exact bps_allowed
  | bool b => exact bps_allowed
  | int n => exact bps_allowed
  | float q => exact bps_allowed
  | list xs => exact bps_allowed
  | dict xs => exact bps_allowed

theorem filter_allowed_mem (l : List String) :
    ∀ x ∈ l.filter (fun s => ALLOWED_SECTORS.contains s), x ∈ ALLOWED_SECTORS := by
  intro x hx
  have hp := List.of_mem_filter hx
  exact List.elem_iff.mp hp

theorem sectors_choice_cases (secv fcv : PyVal) (inf : List String) :
    sectors_choice secv fcv inf = [defaultSectorForFC fcv] ∨
    ∃ l : List String,
      sectors_choice secv fcv inf = l.filter (fun s => ALLOWED_SECTORS.contains s) ∧
      sectors_choice secv fcv inf ≠ [] := by
  have hbody : sectors_choice secv fcv inf =
      (if (if ((as_string_sector_list secv).filter (fun s => ALLOWED_SECTORS.contains s)).isEmpty
            then (as_string_sector_list (PyVal.list (inf.map PyVal.str))).filter
              (fun s => ALLOWED_SECTORS.contains s)
            else (as_string_sector_list secv).filter (fun s => ALLOWED_SECTORS.contains s)).isEmpty
        then [defaultSectorForFC fcv]
        else (if ((as_string_sector_list secv).filter (fun s => ALLOWED_SECTORS.contains s)).isEmpty
            then (as_string_sector_list (PyVal.list (inf.map PyVal.str))).filter
              (fun s => ALLOWED_SECTORS.contains s)
            else (as_string_sector_list secv).filter
              (fun s => ALLOWED_SECTORS.contains s))) := rfl
  rw [hbody]
  by_cases h1 : ((as_string_sector_list secv).filter
      (fun s => ALLOWED_SECTORS.contains s)).isEmpty
  · rw [if_pos h1]
    by_cases h2 : ((as_string_sector_list (PyVal.list (inf.map PyVal.str))).filter
        (fun s => ALLOWED_SECTORS.contains s)).isEmpty
    · rw [if_pos h2]
      left
      rfl
    · rw [if_neg h2]
      right
      refine ⟨as_string_sector_list (PyVal.list (inf.map PyVal.str)), rfl, ?_⟩
      intro hc
      rw [hc] at h2
      simp at h2
  · rw [if_neg h1, if_neg h1]
    right
    refine ⟨as_string_sector_list secv, rfl, ?_⟩
    intro hc
    rw [hc] at h1
    simp at h1

theorem sectors_choice_spec (secv fcv : PyVal) (inf : List String) :
    sectors_choice secv fcv inf ≠ [] ∧
    ∀ x ∈ sectors_choice secv fcv inf, x ∈ ALLOWED_SECTORS := by
  rcases sectors_choice_cases secv fcv inf with heq | ⟨l, heq, hne⟩
  · rw [heq]
    refine ⟨by simp, ?_⟩
    intro x hx
    have hx2 := List.mem_singleton.mp hx
    subst hx2
    exact defaultSector_allowed fcv
  · refine ⟨hne, ?_⟩
    rw [heq]
    exact filter_allowed_mem l

theorem fix_sectors_spec (d : PyDict) (inf : List String) :
    ∃ secs : List String,
      fix_sectors d inf = dset d "sectors" (PyVal.list (secs.map PyVal.str)) ∧
      secs ≠ [] ∧ secs.length ≤ 4 ∧ secs.Nodup ∧ ∀ x ∈ secs, x ∈ ALLOWED_SECTORS := by
  obtain ⟨hne, hmem⟩ :=
    sectors_choice_spec (dgetv d "sectors") (dgetv d "funding_classification") inf
  refine ⟨(dedupFirst [] (sectors_choice (dgetv d "sectors")
    (dgetv d "funding_classification") inf)).take 4, rfl, ?_, ?_, ?_, ?_⟩
  · exact take4_ne_nil _ (dedupFirst_nil_ne_nil _ hne)
  · rw [List.length_take]
    exact Nat.min_le_left 4 _
  · exact ((dedupFirst_spec [] _).1).sublist (List.take_sublist _ _)
  · intro x hx
    exact hmem x (dedupFirst_mem [] _ x (List.take_subset _ _ hx))

theorem as_string_of_clean (xs : List String) (h : ∀ x ∈ xs, pyStrip x = x ∧ x ≠ "") :
    as_string_sector_list (PyVal.list (xs.map PyVal.str)) = xs := by
  induction xs with
  | nil => rfl
  | cons a t ih =>
      obtain ⟨ha1, ha2⟩ := h a (List.mem_cons_self a t)
      have hitem : sector_item_strings (PyVal.str a) = [a] := by
        show (if pyStrip a == "" then [] else [pyStrip a]) = [a]
        rw [ha1, if_neg (by simpa using ha2)]
      show ((List.map PyVal.str (a :: t)).map sector_item_strings).flatten = a :: t
      rw [List.map_cons, List.map_cons, List.flatten_cons, hitem]
      have ht := ih (fun x hx => h x (List.mem_cons_of_mem a hx))
      have ht2 : ((List.map PyVal.str t).map sector_item_strings).flatten = t := ht
      rw [ht2]
      rfl


/-! ## Descriptive-note lemmas -/

theorem str_head_append (s t : String) (c : Char) (h : s.data.head? = Option.some c) :
    (s ++ t).data.head? = Option.some c := by
  rw [String.data_append]
  cases hs : s.data with
  | nil => rw [hs] at h; simp at h
  | cons a r => rw [hs] at h; simpa using h

set_option maxHeartbeats 1000000 in
theorem synth_text_head (name region sec_txt fc : String) :
    (synth_text name region sec_txt fc).data.head? = Option.some 'A' := by
  unfold synth_text
  split_ifs <;> (repeat (apply str_head_append)) <;> rfl

theorem clip_synth (name region sec_txt fc : String) :
    ∃ t, clip (synth_text name region sec_txt fc) 220 = Option.some t ∧ t ≠ "" ∧
      t.length ≤ 223 := by
  have hh := synth_text_head name region sec_txt fc
  have hne : synth_text name region sec_txt fc ≠ "" := by
    intro hc
    rw [string_eq_empty_iff] at hc
    rw [hc] at hh
    simp at hh
  cases hcl : clip (synth_text name region sec_txt fc) 220 with
  | none =>
      exfalso
      unfold clip at hcl
      rw [if_neg (by simpa using hne)] at hcl
      simp at hcl
  | some t =>
      refine ⟨t, rfl, ?_, clip_length_le _ _ _ hcl⟩
      exact clip_ne_empty _ _ _ hcl 'A' hh (by decide)

theorem synth_is_clip (name : String) (country : Option String) (fc : String)
    (secs : List String) :
    synth_additional_info name country fc secs =
      clip (synth_text name
        (match country with
         | Option.some c => if c == "" then "the region" else c
         | Option.none => "the region")
        (if secs.isEmpty then "key industries" else String.intercalate ", " secs) fc) 220 := rfl

theorem synth_additional_info_some (name : String) (country : Option String) (fc : String)
    (secs : List String) :
    ∃ t, synth_additional_info name country fc secs = Option.some t ∧ t ≠ "" ∧
      t.length ≤ 223 := by
  rw [synth_is_clip]
  exact clip_synth name _ _ fc

theorem fix_ai_value_none_eq (org : Org) (fcv secv : PyVal) :
    fix_ai_value org PyVal.none fcv secv =
      optStrToPy (synth_additional_info org.name org.country (pyStrAsString fcv)
        ((match secv with
          | PyVal.list xs => xs.map pyStrAsString
          | _ => []).map map_sector_label_for_sheet)) := rfl

theorem fix_ai_value_str (org : Org) (s : String) (fcv secv : PyVal) :
    fix_ai_value org (PyVal.str s) fcv secv =
      (if s != "" && decide (10 < (pyStrip s).length) then optStrToPy (clip s 220)
       else fix_ai_value org PyVal.none fcv secv) := rfl

theorem fix_ai_value_cases (org : Org) (ai fcv secv : PyVal) :
    (∃ s t, fix_ai_value org ai fcv secv = PyVal.str t ∧ clip s 220 = Option.some t ∧
      10 < (pyStrip s).length) ∨
    fix_ai_value org ai fcv secv = fix_ai_value org PyVal.none fcv secv := by
  cases ai with
  | str s =>
      by_cases hcond : (s != "" && decide (10 < (pyStrip s).length)) = true
      · left
        have hc2 : (s != "") = true ∧ decide (10 < (pyStrip s).length) = true := by
          simpa using hcond
        have hsne : s ≠ "" := by simpa using hc2.1
        have h10 : 10 < (pyStrip s).length := of_decide_eq_true hc2.2
        cases hcl : clip s 220 with
        | none =>
            exfalso
            unfold clip at hcl
            rw [if_neg (by simpa using hsne)] at hcl
            simp at hcl
        | some t =>
            refine ⟨s, t, ?_, hcl, h10⟩
            rw [fix_ai_value_str, if_pos hcond, hcl]
            rfl
      · right
        rw [fix_ai_value_str, if_neg hcond]
  | none => right; rfl
  | bool b => right; rfl
  | int n => right; rfl
  | float q => right; rfl
  | list xs => right; rfl
  | dict xs => right; rfl

theorem fix_ai_value_spec (org : Org) (ai fcv secv : PyVal) :
    ∃ t : String, fix_ai_value org ai fcv secv = PyVal.str t ∧ t ≠ "" ∧ t.length ≤ 223 := by
  rcases fix_ai_value_cases org ai fcv secv with ⟨s, t, hv, hclip, h10⟩ | hv
  · obtain ⟨ht, h10t, hclipt⟩ := clip220_fix s t hclip h10
    exact ⟨t, hv, ht, clip_length_le _ _ _ hclip⟩
  · obtain ⟨t, hs, htne, htlen⟩ := synth_additional_info_some org.name org.country
      (pyStrAsString fcv) ((match secv with
        | PyVal.list xs => xs.map pyStrAsString
        | _ => []).map map_sector_label_for_sheet)
    refine ⟨t, ?_, htne, htlen⟩
    rw [hv, fix_ai_value_none_eq, hs]
    rfl

theorem fix_ai_value_fixpoint (org : Org) (ai fcv secv : PyVal) :
    fix_ai_value org (fix_ai_value org ai fcv secv) fcv secv = fix_ai_value org ai fcv secv := by
  rcases fix_ai_value_cases org ai fcv secv with ⟨s, t, hv, hclip, h10⟩ | hv
  · rw [hv, fix_ai_value_str]
    obtain ⟨ht, h10t, hclipt⟩ := clip220_fix s t hclip h10
    rw [if_pos (show (t != "" && decide (10 < (pyStrip t).length)) = true by
      simp [ht, h10t]), hclipt]
    rfl
  · rw [hv, fix_ai_value_none_eq]
    cases hs : synth_additional_info org.name org.country (pyStrAsString fcv)
        ((match secv with
          | PyVal.list xs => xs.map pyStrAsString
          | _ => []).map map_sector_label_for_sheet) with
    | none =>
        show fix_ai_value org PyVal.none fcv secv = PyVal.none
        rw [fix_ai_value_none_eq, hs]
        rfl
    | some t =>
        show fix_ai_value org (PyVal.str t) fcv secv = PyVal.str t
        rw [fix_ai_value_str]
        by_cases hcond : (t != "" && decide (10 < (pyStrip t).length)) = true
        · have hc2 : (t != "") = true ∧ decide (10 < (pyStrip t).length) = true := by
            simpa using hcond
          have ht : t ≠ "" := by simpa using hc2.1
          have hct := clip_clip _ t 220 hs ht
          rw [if_pos hcond, hct]
          rfl
        · rw [if_neg hcond, fix_ai_value_none_eq, hs]
          rfl

/-! ## Sources, stages and heuristic lemmas -/

theorem fix_sources_value_spec (v : PyVal) :
    ∃ xs : List PyVal, fix_sources_value v = PyVal.list xs ∧ xs.length ≤ 5 := by
  unfold fix_sources_value
  by_cases ht : truthy v = true
  · rw [if_pos ht]
    cases v with
    | list xs =>
        exact ⟨xs.take 5, rfl, by rw [List.length_take]; exact Nat.min_le_left 5 _⟩
    | none => exact ⟨[], rfl, by simp⟩
    | bool b => exact ⟨[], rfl, by simp⟩
    | int n => exact ⟨[], rfl, by simp⟩
    | float q => exact ⟨[], rfl, by simp⟩
    | str s => exact ⟨[], rfl, by simp⟩
    | dict xs => exact ⟨[], rfl, by simp⟩
  · rw [if_neg ht]
    exact ⟨[], rfl, by simp⟩

theorem fix_sources_value_fixpoint (v : PyVal) :
    fix_sources_value (fix_sources_value v) = fix_sources_value v := by
  obtain ⟨xs, hv, hlen⟩ := fix_sources_value_spec v
  rw [hv]
  by_cases hxe : xs.isEmpty = true
  · have hx : xs = [] := List.isEmpty_iff.mp hxe
    subst hx
    rfl
  · have ht : truthy (PyVal.list xs) = true := by simpa [truthy] using hxe
    unfold fix_sources_value
    rw [if_pos ht]
    show PyVal.list (xs.take 5) = PyVal.list xs
    rw [List.take_of_length_le hlen]

theorem fix_stages_cleared (d : PyDict)
    (h : pyEqStr (dgetv d "funding_classification") "Venture Capital Funds" = false) :
    dget (fix_stages d) "stages" = Option.some (PyVal.list []) ∧
    dget (fix_stages d) "ticket_size_usd_min" = Option.some PyVal.none ∧
    dget (fix_stages d) "ticket_size_usd_max" = Option.some PyVal.none ∧
    dget (fix_stages d) "ticket_size_currency" = Option.some PyVal.none := by
  unfold fix_stages
  rw [if_neg (by simp [h])]
  refine ⟨?_, ?_, ?_, ?_⟩
  · rw [dget_dset_ne _ _ _ _ (by decide), dget_dset_ne _ _ _ _ (by decide),
      dget_dset_ne _ _ _ _ (by decide)]
    exact dget_dset_self _ _ _
  · rw [dget_dset_ne _ _ _ _ (by decide), dget_dset_ne _ _ _ _ (by decide)]
    exact dget_dset_self _ _ _
  · rw [dget_dset_ne _ _ _ _ (by decide)]
    exact dget_dset_self _ _ _
  · exact dget_dset_self _ _ _

theorem fix_stages_keyall (d : PyDict)
    (h : pyEqStr (dgetv d "funding_classification") "Venture Capital Funds" = false) :
    KeyAll (fix_stages d) "stages" (PyVal.list []) ∧
    KeyAll (fix_stages d) "ticket_size_usd_min" PyVal.none ∧
    KeyAll (fix_stages d) "ticket_size_usd_max" PyVal.none ∧
    KeyAll (fix_stages d) "ticket_size_currency" PyVal.none := by
  unfold fix_stages
  rw [if_neg (by simp [h])]
  refine ⟨?_, ?_, ?_, ?_⟩
  · exact KeyAll_dset_ne _ _ _ _ _ (by decide) (KeyAll_dset_ne _ _ _ _ _ (by decide)
      (KeyAll_dset_ne _ _ _ _ _ (by decide) (KeyAll_dset_self _ _ _)))
  · exact KeyAll_dset_ne _ _ _ _ _ (by decide) (KeyAll_dset_ne _ _ _ _ _ (by decide)
      (KeyAll_dset_self _ _ _))
  · exact KeyAll_dset_ne _ _ _ _ _ (by decide) (KeyAll_dset_self _ _ _)
  · exact KeyAll_dset_self _ _ _

theorem cls_hints_clean : ∀ p ∈ CLS_HINTS, p.1 ≠ "" ∧ pyStrip p.1 = p.1 := by decide

theorem heuristic_cases (name text : String) :
    heuristic_funding_classification name text = "Investment Firms" ∨
    ∃ p ∈ CLS_HINTS, heuristic_funding_classification name text = p.1 := by
  have hbody : heuristic_funding_classification name text =
      (match CLS_HINTS.find? (fun p => p.2.any (fun kw =>
        strContains (strToLower (name ++ " " ++ text)) kw)) with
      | Option.some p => p.1
      | Option.none => if strContains (strToLower (name ++ " " ++ text)) "bank"
          then "Investment Firms" else "Investment Firms") := rfl
  rw [hbody]
  cases hf : CLS_HINTS.find? (fun p => p.2.any (fun kw =>
      strContains (strToLower (name ++ " " ++ text)) kw)) with
  | none =>
      left
      show (if strContains (strToLower (name ++ " " ++ text)) "bank" then "Investment Firms"
        else "Investment Firms") = "Investment Firms"
      split_ifs <;> rfl
  | some p =>
      right
      exact ⟨p, List.mem_of_find?_eq_some hf, rfl⟩

theorem heuristic_facts (name text : String) :
    heuristic_funding_classification name text ≠ "" ∧
    pyStrip (heuristic_funding_classification name text) =
      heuristic_funding_classification name text := by
  rcases heuristic_cases name text with h | ⟨p, hp, h⟩
  · rw [h]
    exact ⟨by decide, by decide⟩
  · rw [h]
    obtain ⟨h1, h2⟩ := cls_hints_clean p hp
    exact ⟨h1, h2⟩

/-! ## The sanitizer's structural lemma -/

theorem dget_fix_fc_ne (record : PyDict) (h : String) (r1 : PyDict)
    (hfx : fix_fc record h = Option.some r1) (k : String)
    (hk : k ≠ "funding_classification") :
    dget r1 k = dget record k := by
  obtain ⟨fcs, _, _, hcase⟩ := fix_fc_spec record h r1 hfx
  rcases hcase with ⟨_, rfl⟩ | ⟨_, rfl⟩
  · rfl
  · exact dget_dset_ne _ _ _ _ hk

theorem sanitize_spec (org : Org) (record : PyDict) (h : String) (s : List String)
    (r' : PyDict) (hs : sanitize_record org record h s = Option.some r') :
    ∃ (fcs : String) (secs : List String),
      dget r' "funding_classification" = Option.some (PyVal.str fcs) ∧ fcs ≠ "" ∧
      KeyAll r' "sectors" (PyVal.list (secs.map PyVal.str)) ∧
      secs ≠ [] ∧ secs.length ≤ 4 ∧ secs.Nodup ∧ (∀ x ∈ secs, x ∈ ALLOWED_SECTORS) ∧
      (∃ t : String, KeyAll r' "additional_info" (PyVal.str t) ∧ t ≠ "" ∧ t.length ≤ 223) ∧
      (fcs ≠ "Venture Capital Funds" →
        dget r' "stages" = Option.some (PyVal.list []) ∧
        dget r' "ticket_size_usd_min" = Option.some PyVal.none ∧
        dget r' "ticket_size_usd_max" = Option.some PyVal.none ∧
        dget r' "ticket_size_currency" = Option.some PyVal.none) ∧
      (fcs ≠ "Angel Investors" → dget r' "angel_type" = Option.some PyVal.none) := by
  unfold sanitize_record at hs
  cases hfc : fix_fc record h with
  | none => rw [hfc] at hs; simp at hs
  | some r1 =>
      rw [hfc] at hs
      have hs2 : Option.some (fix_sources (fix_stages (fix_ai org
        (fix_sectors (fix_angel org r1) s)))) = Option.some r' := hs
      have hr' := (Option.some.inj hs2).symm
      subst hr'
      obtain ⟨fcs, hfcget, hfcne, _⟩ := fix_fc_spec record h r1 hfc
      obtain ⟨secs, hsec_eq, hsecne, hseclen, hsecnodup, hsecmem⟩ :=
        fix_sectors_spec (fix_angel org r1) s
      have hfc2 : dget (fix_angel org r1) "funding_classification" =
          Option.some (PyVal.str fcs) := by
        rw [dget_fix_angel_ne org r1 _ (by decide)]
        exact hfcget
      have hfc3 : dget (fix_sectors (fix_angel org r1) s) "funding_classification" =
          Option.some (PyVal.str fcs) := by
        rw [dget_fix_sectors_ne _ _ _ (by decide)]
        exact hfc2
      have hfc4 : dget (fix_ai org (fix_sectors (fix_angel org r1) s))
          "funding_classification" = Option.some (PyVal.str fcs) := by
        rw [dget_fix_ai_ne _ _ _ (by decide)]
        exact hfc3
      have hfc5 : dget (fix_stages (fix_ai org (fix_sectors (fix_angel org r1) s)))
          "funding_classification" = Option.some (PyVal.str fcs) := by
        rw [dget_fix_stages_ne _ _ (by decide) (by decide) (by decide) (by decide)]
        exact hfc4
      have hfcF : dget (fix_sources (fix_stages (fix_ai org
          (fix_sectors (fix_angel org r1) s)))) "funding_classification" =
          Option.some (PyVal.str fcs) := by
        rw [dget_fix_sources_ne _ _ (by decide)]
        exact hfc5
      refine ⟨fcs, secs, hfcF, hfcne, ?_, hsecne, hseclen, hsecnodup, hsecmem, ?_, ?_, ?_⟩
      · -- sectors KeyAll, preserved from the sectors stage onward
        have hk3 : KeyAll (fix_sectors (fix_angel org r1) s) "sectors"
            (PyVal.list (secs.map PyVal.str)) := by
          rw [hsec_eq]
          exact KeyAll_dset_self _ _ _
        exact KeyAll_fix_sources _ _ _ (by decide)
          (KeyAll_fix_stages _ _ _ (by decide) (by decide) (by decide) (by decide)
            (KeyAll_fix_ai org _ _ _ (by decide) hk3))
      · -- descriptive note
        obtain ⟨t, hT, htne, htlen⟩ := fix_ai_value_spec org
          (dgetv (fix_sectors (fix_angel org r1) s) "additional_info")
          (dgetv (fix_sectors (fix_angel org r1) s) "funding_classification")
          (dgetv (fix_sectors (fix_angel org r1) s) "sectors")
        refine ⟨t, ?_, htne, htlen⟩
        have hk4 : KeyAll (fix_ai org (fix_sectors (fix_angel org r1) s))
            "additional_info" (PyVal.str t) := by
          have heq : fix_ai org (fix_sectors (fix_angel org r1) s) =
              dset (fix_sectors (fix_angel org r1) s) "additional_info" (PyVal.str t) := by
            rw [show fix_ai org (fix_sectors (fix_angel org r1) s) =
              dset (fix_sectors (fix_angel org r1) s) "additional_info"
                (fix_ai_value org
                  (dgetv (fix_sectors (fix_angel org r1) s) "additional_info")
                  (dgetv (fix_sectors (fix_angel org r1) s) "funding_classification")
                  (dgetv (fix_sectors (fix_angel org r1) s) "sectors")) from rfl, hT]
          rw [heq]
          exact KeyAll_dset_self _ _ _
        exact KeyAll_fix_sources _ _ _ (by decide)
          (KeyAll_fix_stages _ _ _ (by decide) (by decide) (by decide) (by decide) hk4)
      · -- stage-contingent fields
        intro hvc
        have hdv : dgetv (fix_ai org (fix_sectors (fix_angel org r1) s))
            "funding_classification" = PyVal.str fcs := by
          unfold dgetv
          rw [hfc4]
          rfl
        have hpe : pyEqStr (dgetv (fix_ai org (fix_sectors (fix_angel org r1) s))
            "funding_classification") "Venture Capital Funds" = false := by
          rw [hdv]
          show (fcs == "Venture Capital Funds") = false
          exact beq_eq_false_iff_ne.mpr hvc
        obtain ⟨c1, c2, c3, c4⟩ := fix_stages_cleared _ hpe
        refine ⟨?_, ?_, ?_, ?_⟩
        · rw [dget_fix_sources_ne _ _ (by decide)]; exact c1
        · rw [dget_fix_sources_ne _ _ (by decide)]; exact c2
        · rw [dget_fix_sources_ne _ _ (by decide)]; exact c3
        · rw [dget_fix_sources_ne _ _ (by decide)]; exact c4
      · -- angel clearing
        intro hang
        have hdv : dgetv r1 "funding_classification" = PyVal.str fcs := by
          unfold dgetv
          rw [hfcget]
          rfl
        have hpe : pyEqStr (dgetv r1 "funding_classification") "Angel Investors" = false := by
          rw [hdv]
          show (fcs == "Angel Investors") = false
          exact beq_eq_false_iff_ne.mpr hang
        have hang2 : dget (fix_angel org r1) "angel_type" = Option.some PyVal.none := by
          unfold fix_angel
          rw [if_neg (by simp [hpe])]
          exact dget_dset_self _ _ _
        rw [dget_fix_sources_ne _ _ (by decide),
          dget_fix_stages_ne _ _ (by decide) (by decide) (by decide) (by decide),
          dget_fix_ai_ne _ _ _ (by decide), dget_fix_sectors_ne _ _ _ (by decide)]
        exact hang2

/-! ## The sanitizer's idempotence -/

theorem sanitize_unfold (org : Org) (record : PyDict) (h : String) (s : List String)
    (r' : PyDict) (hs : sanitize_record org record h s = Option.some r') :
    ∃ r1, fix_fc record h = Option.some r1 ∧
      r' = fix_sources (fix_stages (fix_ai org (fix_sectors (fix_angel org r1) s))) := by
  unfold sanitize_record at hs
  cases hfc : fix_fc record h with
  | none => rw [hfc] at hs; simp at hs
  | some r1 =>
      rw [hfc] at hs
      have hs2 : Option.some (fix_sources (fix_stages (fix_ai org
        (fix_sectors (fix_angel org r1) s)))) = Option.some r' := hs
      exact ⟨r1, rfl, (Option.some.inj hs2).symm⟩

theorem sanitize_state (org : Org) (record : PyDict) (h : String) (s : List String)
    (r1 : PyDict) (hfc : fix_fc record h = Option.some r1) :
    ∃ (fcs : String) (secs : List String),
      dget (fix_sources (fix_stages (fix_ai org (fix_sectors (fix_angel org r1) s))))
        "funding_classification" = Option.some (PyVal.str fcs) ∧ fcs ≠ "" ∧
      (pyStrip fcs ≠ "" ∨
        (fcs = (if h == "" then "Investment Firms" else h) ∧
         KeyAll (fix_sources (fix_stages (fix_ai org (fix_sectors (fix_angel org r1) s))))
           "funding_classification" (PyVal.str fcs))) ∧
      KeyAll (fix_sources (fix_stages (fix_ai org (fix_sectors (fix_angel org r1) s))))
        "sectors" (PyVal.list (secs.map PyVal.str)) ∧
      secs ≠ [] ∧ secs.length ≤ 4 ∧ secs.Nodup ∧ (∀ x ∈ secs, x ∈ ALLOWED_SECTORS) ∧
      (∃ a0 : PyVal,
        KeyAll (fix_sources (fix_stages (fix_ai org (fix_sectors (fix_angel org r1) s))))
          "additional_info"
          (fix_ai_value org a0 (PyVal.str fcs) (PyVal.list (secs.map PyVal.str)))) ∧
      (fcs ≠ "Venture Capital Funds" →
        KeyAll (fix_sources (fix_stages (fix_ai org (fix_sectors (fix_angel org r1) s))))
          "stages" (PyVal.list []) ∧
        KeyAll (fix_sources (fix_stages (fix_ai org (fix_sectors (fix_angel org r1) s))))
          "ticket_size_usd_min" PyVal.none ∧
        KeyAll (fix_sources (fix_stages (fix_ai org (fix_sectors (fix_angel org r1) s))))
          "ticket_size_usd_max" PyVal.none ∧
        KeyAll (fix_sources (fix_stages (fix_ai org (fix_sectors (fix_angel org r1) s))))
          "ticket_size_currency" PyVal.none) ∧
      (∃ xs : List PyVal,
        KeyAll (fix_sources (fix_stages (fix_ai org (fix_sectors (fix_angel org r1) s))))
          "sources" (PyVal.list xs) ∧
        fix_sources_value (PyVal.list xs) = PyVal.list xs) ∧
      (fcs ≠ "Angel Investors" →
        KeyAll (fix_sources (fix_stages (fix_ai org (fix_sectors (fix_angel org r1) s))))
          "angel_type" PyVal.none) ∧
      (fcs = "Angel Investors" →
        ∃ w, dget (fix_sources (fix_stages (fix_ai org (fix_sectors (fix_angel org r1) s))))
          "angel_type" = Option.some w ∧ truthy w = true) := by
  obtain ⟨fcs, hfcget, hfcne, hcase⟩ := fix_fc_spec record h r1 hfc
  obtain ⟨secs, hsec_eq, hsecne, hseclen, hsecnodup, hsecmem⟩ :=
    fix_sectors_spec (fix_angel org r1) s
  have hfc2 : dget (fix_angel org r1) "funding_classification" =
      Option.some (PyVal.str fcs) := by
    rw [dget_fix_angel_ne org r1 _ (by decide)]
    exact hfcget
  have hfc3 : dget (fix_sectors (fix_angel org r1) s) "funding_classification" =
      Option.some (PyVal.str fcs) := by
    rw [dget_fix_sectors_ne _ _ _ (by decide)]
    exact hfc2
  have hfc4 : dget (fix_ai org (fix_sectors (fix_angel org r1) s))
      "funding_classification" = Option.some (PyVal.str fcs) := by
    rw [dget_fix_ai_ne _ _ _ (by decide)]
    exact hfc3
  have hfc5 : dget (fix_stages (fix_ai org (fix_sectors (fix_angel org r1) s)))
      "funding_classification" = Option.some (PyVal.str fcs) := by
    rw [dget_fix_stages_ne _ _ (by decide) (by decide) (by decide) (by decide)]
    exact hfc4
  have hfcF : dget (fix_sources (fix_stages (fix_ai org
      (fix_sectors (fix_angel org r1) s)))) "funding_classification" =
      Option.some (PyVal.str fcs) := by
    rw [dget_fix_sources_ne _ _ (by decide)]
    exact hfc5
  have hsecKA3 : KeyAll (fix_sectors (fix_angel org r1) s) "sectors"
      (PyVal.list (secs.map PyVal.str)) := by
    rw [hsec_eq]
    exact KeyAll_dset_self _ _ _
  have hsecKAF : KeyAll (fix_sources (fix_stages (fix_ai org
      (fix_sectors (fix_angel org r1) s)))) "sectors" (PyVal.list (secs.map PyVal.str)) :=
    KeyAll_fix_sources _ _ _ (by decide)
      (KeyAll_fix_stages _ _ _ (by decide) (by decide) (by decide) (by decide)
        (KeyAll_fix_ai org _ _ _ (by decide) hsecKA3))
  have hsecget3 : dget (fix_sectors (fix_angel org r1) s) "sectors" =
      Option.some (PyVal.list (secs.map PyVal.str)) := by
    rw [hsec_eq]
    exact dget_dset_self _ _ _
  refine ⟨fcs, secs, hfcF, hfcne, ?_, hsecKAF, hsecne, hseclen, hsecnodup, hsecmem,
    ?_, ?_, ?_, ?_, ?_⟩
  · -- the fc write disjunction
    rcases hcase with ⟨hkept, _⟩ | ⟨hval, hr1eq⟩
    · exact Or.inl hkept
    · refine Or.inr ⟨hval, ?_⟩
      have hKA1 : KeyAll r1 "funding_classification" (PyVal.str fcs) := by
        rw [hr1eq]
        exact KeyAll_dset_self _ _ _
      exact KeyAll_fix_sources _ _ _ (by decide)
        (KeyAll_fix_stages _ _ _ (by decide) (by decide) (by decide) (by decide)
          (KeyAll_fix_ai org _ _ _ (by decide)
            (KeyAll_fix_sectors _ s _ _ (by decide)
              (KeyAll_fix_angel org _ _ _ (by decide) hKA1))))
  · -- additional_info value shape
    refine ⟨dgetv (fix_sectors (fix_angel org r1) s) "additional_info", ?_⟩
    have hdv_fc : dgetv (fix_sectors (fix_angel org r1) s) "funding_classification" =
        PyVal.str fcs := by
      unfold dgetv
      rw [hfc3]
      rfl
    have hdv_sec : dgetv (fix_sectors (fix_angel org r1) s) "sectors" =
        PyVal.list (secs.map PyVal.str) := by
      unfold dgetv
      rw [hsecget3]
      rfl
    have hk4 : KeyAll (fix_ai org (fix_sectors (fix_angel org r1) s)) "additional_info"
        (fix_ai_value org (dgetv (fix_sectors (fix_angel org r1) s) "additional_info")
          (PyVal.str fcs) (PyVal.list (secs.map PyVal.str))) := by
      have heq : fix_ai org (fix_sectors (fix_angel org r1) s) =
          dset (fix_sectors (fix_angel org r1) s) "additional_info"
            (fix_ai_value org (dgetv (fix_sectors (fix_angel org r1) s) "additional_info")
              (PyVal.str fcs) (PyVal.list (secs.map PyVal.str))) := by
        rw [show fix_ai org (fix_sectors (fix_angel org r1) s) =
          dset (fix_sectors (fix_angel org r1) s) "additional_info"
            (fix_ai_value org
              (dgetv (fix_sectors (fix_angel org r1) s) "additional_info")
              (dgetv (fix_sectors (fix_angel org r1) s) "funding_classification")
              (dgetv (fix_sectors (fix_angel org r1) s) "sectors")) from rfl,
          hdv_fc, hdv_sec]
      rw [heq]
      exact KeyAll_dset_self _ _ _
    exact KeyAll_fix_sources _ _ _ (by decide)
      (KeyAll_fix_stages _ _ _ (by decide) (by decide) (by decide) (by decide) hk4)
  · -- stage-contingent KeyAll facts
    intro hvc
    have hdv : dgetv (fix_ai org (fix_sectors (fix_angel org r1) s))
        "funding_classification" = PyVal.str fcs := by
      unfold dgetv
      rw [hfc4]
      rfl
    have hpe : pyEqStr (dgetv (fix_ai org (fix_sectors (fix_angel org r1) s))
        "funding_classification") "Venture Capital Funds" = false := by
      rw [hdv]
      show (fcs == "Venture Capital Funds") = false
      exact beq_eq_false_iff_ne.mpr hvc
    obtain ⟨k1, k2, k3, k4⟩ := fix_stages_keyall _ hpe
    exact ⟨KeyAll_fix_sources _ _ _ (by decide) k1,
      KeyAll_fix_sources _ _ _ (by decide) k2,
      KeyAll_fix_sources _ _ _ (by decide) k3,
      KeyAll_fix_sources _ _ _ (by decide) k4⟩
  · -- sources
    obtain ⟨xs, hv, hlen⟩ := fix_sources_value_spec
      (dgetv (fix_stages (fix_ai org (fix_sectors (fix_angel org r1) s))) "sources")
    refine ⟨xs, ?_, ?_⟩
    · have heq : fix_sources (fix_stages (fix_ai org (fix_sectors (fix_angel org r1) s))) =
          dset (fix_stages (fix_ai org (fix_sectors (fix_angel org r1) s))) "sources"
            (PyVal.list xs) := by
        rw [show fix_sources (fix_stages (fix_ai org (fix_sectors (fix_angel org r1) s))) =
          dset (fix_stages (fix_ai org (fix_sectors (fix_angel org r1) s))) "sources"
            (fix_sources_value (dgetv (fix_stages (fix_ai org
              (fix_sectors (fix_angel org r1) s))) "sources")) from rfl, hv]
      rw [heq]
      exact KeyAll_dset_self _ _ _
    · rw [← hv]
      exact fix_sources_value_fixpoint _
  · -- angel cleared for non-Angel classifications
    intro hang
    have hdv : dgetv r1 "funding_classification" = PyVal.str fcs := by
      unfold dgetv
      rw [hfcget]
      rfl
    have hpe : pyEqStr (dgetv r1 "funding_classification") "Angel Investors" = false := by
      rw [hdv]
      show (fcs == "Angel Investors") = false
      exact beq_eq_false_iff_ne.mpr hang
    have hKA2 : KeyAll (fix_angel org r1) "angel_type" PyVal.none := by
      unfold fix_angel
      rw [if_neg (by simp [hpe])]
      exact KeyAll_dset_self _ _ _
    exact KeyAll_fix_sources _ _ _ (by decide)
      (KeyAll_fix_stages _ _ _ (by decide) (by decide) (by decide) (by decide)
        (KeyAll_fix_ai org _ _ _ (by decide)
          (KeyAll_fix_sectors _ s _ _ (by decide) hKA2)))
  · -- angel truthy for Angel classification
    intro hang
    have hdv : dgetv r1 "funding_classification" = PyVal.str fcs := by
      unfold dgetv
      rw [hfcget]
      rfl
    have hpe : pyEqStr (dgetv r1 "funding_classification") "Angel Investors" = true := by
      rw [hdv]
      show (fcs == "Angel Investors") = true
      exact beq_iff_eq.mpr hang
    have hchain : ∀ w, dget (fix_angel org r1) "angel_type" = Option.some w →
        dget (fix_sources (fix_stages (fix_ai org (fix_sectors (fix_angel org r1) s))))
          "angel_type" = Option.some w := by
      intro w hw
      rw [dget_fix_sources_ne _ _ (by decide),
        dget_fix_stages_ne _ _ (by decide) (by decide) (by decide) (by decide),
        dget_fix_ai_ne _ _ _ (by decide), dget_fix_sectors_ne _ _ _ (by decide)]
      exact hw
    by_cases htr : truthy (dgetv r1 "angel_type") = true
    · -- the model's value is kept
      cases hag : dget r1 "angel_type" with
      | none =>
          exfalso
          unfold dgetv at htr
          rw [hag] at htr
          simp [truthy] at htr
      | some w =>
          refine ⟨w, ?_, ?_⟩
          · apply hchain
            unfold fix_angel
            rw [if_pos hpe, if_pos htr]
            exact hag
          · unfold dgetv at htr
            rw [hag] at htr
            simpa using htr
    · -- the angel type is derived from the organization name
      refine ⟨PyVal.str (if strContains (strToLower org.name) "network" ||
        strContains (strToLower org.name) "group" ||
        strContains (strToLower org.name) "syndicate" then "network" else "individual"), ?_, ?_⟩
      · apply hchain
        unfold fix_angel
        rw [if_pos hpe, if_neg htr]
        exact dget_dset_self _ _ _
      · show ((if strContains (strToLower org.name) "network" ||
          strContains (strToLower org.name) "group" ||
          strContains (strToLower org.name) "syndicate" then "network" else "individual") != "") = true
        split_ifs <;> decide

theorem sectors_choice_clean (fcv : PyVal) (inf : List String) (secs : List String)
    (hne : secs ≠ []) (hmem : ∀ x ∈ secs, x ∈ ALLOWED_SECTORS) :
    sectors_choice (PyVal.list (secs.map PyVal.str)) fcv inf = secs := by
  have hclean : ∀ x ∈ secs, pyStrip x = x ∧ x ≠ "" :=
    fun x hx => allowed_strip_facts x (hmem x hx)
  have hstr : as_string_sector_list (PyVal.list (secs.map PyVal.str)) = secs :=
    as_string_of_clean secs hclean
  have hfilter : secs.filter (fun s => ALLOWED_SECTORS.contains s) = secs :=
    List.filter_eq_self.mpr (fun x hx => List.elem_iff.mpr (hmem x hx))
  have hie : ¬ (secs.isEmpty = true) := by
    simpa [List.isEmpty_iff] using hne
  have hbody : sectors_choice (PyVal.list (secs.map PyVal.str)) fcv inf =
      (if (if ((as_string_sector_list (PyVal.list (secs.map PyVal.str))).filter
            (fun s => ALLOWED_SECTORS.contains s)).isEmpty
          then (as_string_sector_list (PyVal.list (inf.map PyVal.str))).filter
            (fun s => ALLOWED_SECTORS.contains s)
          else (as_string_sector_list (PyVal.list (secs.map PyVal.str))).filter
            (fun s => ALLOWED_SECTORS.contains s)).isEmpty
        then [defaultSectorForFC fcv]
        else (if ((as_string_sector_list (PyVal.list (secs.map PyVal.str))).filter
            (fun s => ALLOWED_SECTORS.contains s)).isEmpty
          then (as_string_sector_list (PyVal.list (inf.map PyVal.str))).filter
            (fun s => ALLOWED_SECTORS.contains s)
          else (as_string_sector_list (PyVal.list (secs.map PyVal.str))).filter
            (fun s => ALLOWED_SECTORS.contains s))) := rfl
  rw [hbody, hstr, hfilter, if_neg hie, if_neg hie]

theorem sanitize_idem_aux (org : Org) (record : PyDict) (h : String) (s : List String)
    (r' : PyDict) (hs : sanitize_record org record h s = Option.some r') :
    sanitize_record org r' h s = Option.some r' := by
  obtain ⟨r1, hfc, hr'⟩ := sanitize_unfold org record h s r' hs
  obtain ⟨fcs, secs, hfcF, hfcne, hfcwrite, hsecKA, hsecne, hseclen, hsecnodup, hsecmem,
    ⟨a0, haiKA⟩, hstagesKA, ⟨xs, hsrcKA, hsrcfix⟩, hangelNone, hangelSome⟩ :=
    sanitize_state org record h s r1 hfc
  rw [← hr'] at hfcF hfcwrite hsecKA haiKA hstagesKA hsrcKA hangelNone hangelSome
  have hdv_fc : dgetv r' "funding_classification" = PyVal.str fcs := by
    unfold dgetv
    rw [hfcF]
    rfl
  have hdv_sec : dgetv r' "sectors" = PyVal.list (secs.map PyVal.str) := by
    unfold dgetv
    rw [dget_of_KeyAll _ _ _ hsecKA]
    rfl
  have hdv_ai : dgetv r' "additional_info" =
      fix_ai_value org a0 (PyVal.str fcs) (PyVal.list (secs.map PyVal.str)) := by
    unfold dgetv
    rw [dget_of_KeyAll _ _ _ haiKA]
    rfl
  have hdv_src : dgetv r' "sources" = PyVal.list xs := by
    unfold dgetv
    rw [dget_of_KeyAll _ _ _ hsrcKA]
    rfl
  have hstep1 : fix_fc r' h = Option.some r' := by
    have hbody : fix_fc r' h =
        (match (if truthy (dgetv r' "funding_classification")
            then dgetv r' "funding_classification" else PyVal.str "") with
         | PyVal.str s0 => Option.some (if pyStrip s0 == "" then
             dset r' "funding_classification"
               (PyVal.str (if h == "" then "Investment Firms" else h))
           else r')
         | _ => Option.none) := rfl
    rw [hbody, hdv_fc,
      if_pos (show truthy (PyVal.str fcs) = true by simp [truthy, hfcne])]
    show Option.some (if pyStrip fcs == "" then
        dset r' "funding_classification" (PyVal.str (if h == "" then "Investment Firms" else h))
      else r') = Option.some r'
    by_cases hstrip : (pyStrip fcs == "") = true
    · rw [if_pos hstrip]
      rcases hfcwrite with hkept | ⟨hval, hKA⟩
      · exact absurd (by simpa using hstrip) hkept
      · rw [← hval, dset_eq_of_KeyAll _ _ _ hKA]
    · rw [if_neg hstrip]
  have hstep2 : fix_angel org r' = r' := by
    by_cases hAI : fcs = "Angel Investors"
    · obtain ⟨w, hw, htw⟩ := hangelSome hAI
      unfold fix_angel
      rw [if_pos (show pyEqStr (dgetv r' "funding_classification") "Angel Investors" = true by
        rw [hdv_fc]
        show (fcs == "Angel Investors") = true
        exact beq_iff_eq.mpr hAI)]
      rw [if_pos (show truthy (dgetv r' "angel_type") = true by
        unfold dgetv
        rw [hw]
        exact htw)]
    · have hKA := hangelNone hAI
      unfold fix_angel
      rw [if_neg (show ¬ pyEqStr (dgetv r' "funding_classification") "Angel Investors" = true by
        rw [hdv_fc]
        show ¬ (fcs == "Angel Investors") = true
        simp [hAI])]
      exact dset_eq_of_KeyAll _ _ _ hKA
  have hstep3 : fix_sectors r' s = r' := by
    unfold fix_sectors
    rw [hdv_sec, hdv_fc, sectors_choice_clean (PyVal.str fcs) s secs hsecne hsecmem,
      dedupFirst_eq_self [] secs hsecnodup (by simp), List.take_of_length_le hseclen]
    exact dset_eq_of_KeyAll _ _ _ hsecKA
  have hstep4 : fix_ai org r' = r' := by
    unfold fix_ai
    rw [hdv_ai, hdv_fc, hdv_sec,
      fix_ai_value_fixpoint org a0 (PyVal.str fcs) (PyVal.list (secs.map PyVal.str))]
    exact dset_eq_of_KeyAll _ _ _ haiKA
  have hstep5 : fix_stages r' = r' := by
    by_cases hvc : fcs = "Venture Capital Funds"
    · unfold fix_stages
      rw [if_pos (show pyEqStr (dgetv r' "funding_classification")
          "Venture Capital Funds" = true by
        rw [hdv_fc]
        show (fcs == "Venture Capital Funds") = true
        exact beq_iff_eq.mpr hvc)]
    · obtain ⟨k1, k2, k3, k4⟩ := hstagesKA hvc
      unfold fix_stages
      rw [if_neg (show ¬ pyEqStr (dgetv r' "funding_classification")
          "Venture Capital Funds" = true by
        rw [hdv_fc]
        show ¬ (fcs == "Venture Capital Funds") = true
        simp [hvc])]
      rw [dset_eq_of_KeyAll _ _ _ k1, dset_eq_of_KeyAll _ _ _ k2,
        dset_eq_of_KeyAll _ _ _ k3, dset_eq_of_KeyAll _ _ _ k4]
  have hstep6 : fix_sources r' = r' := by
    unfold fix_sources
    rw [hdv_src, hsrcfix]
    exact dset_eq_of_KeyAll _ _ _ hsrcKA
  unfold sanitize_record
  rw [hstep1]
  show Option.some (fix_sources (fix_stages (fix_ai org
    (fix_sectors (fix_angel org r') s)))) = Option.some r'
  rw [hstep2, hstep3, hstep4, hstep5, hstep6]

/-! ## Column-normalization lemmas -/

theorem pyStringList_map_str (xs : List String) :
    pyStringList? (PyVal.list (xs.map PyVal.str)) = Option.some xs := by
  induction xs with
  | nil => rfl
  | cons a t ih =>
      show ((a :: t).map PyVal.str).mapM (fun v =>
        match v with
        | PyVal.str s => Option.some s
        | _ => Option.none) = Option.some (a :: t)
      rw [List.map_cons, List.mapM_cons]
      have ih2 : (t.map PyVal.str).mapM (fun v =>
          match v with
          | PyVal.str s => Option.some s
          | _ => Option.none) = Option.some t := ih
      rw [ih2]
      rfl

theorem normalize_on_sanitized (r : PyDict) (fcv : PyVal) (secs : List String) (t : String)
    (hfc : dget r "funding_classification" = Option.some fcv)
    (hsec : dget r "sectors" = Option.some (PyVal.list (secs.map PyVal.str)))
    (hsecne : secs ≠ [])
    (hstages : dget r "stages" = Option.some (PyVal.list []))
    (hai : dget r "additional_info" = Option.some (PyVal.str t)) :
    normalize_to_columns r = Option.some
      ⟨fcv,
       PyVal.str (String.intercalate ", " (secs.map map_sector_label_for_sheet)),
       PyVal.none,
       (if pyEqStr fcv "Angel Investors" then dgetv r "angel_type" else PyVal.none),
       PyVal.str t⟩ := by
  have hdfc : dgetv r "funding_classification" = fcv := by
    unfold dgetv
    rw [hfc]
    rfl
  have hdsec : dgetv r "sectors" = PyVal.list (secs.map PyVal.str) := by
    unfold dgetv
    rw [hsec]
    rfl
  have hdstages : dgetv r "stages" = PyVal.list [] := by
    unfold dgetv
    rw [hstages]
    rfl
  have hdai : dgetv r "additional_info" = PyVal.str t := by
    unfold dgetv
    rw [hai]
    rfl
  have htr : truthy (PyVal.list (secs.map PyVal.str)) = true := by
    show (!(secs.map PyVal.str).isEmpty) = true
    simp [List.isEmpty_iff, hsecne]
  have hmapne : (secs.map map_sector_label_for_sheet).isEmpty = false := by
    simp [List.isEmpty_iff, hsecne]
  have hbody : normalize_to_columns r =
      (pyStringList? (if truthy (dgetv r "sectors")
          then dgetv r "sectors" else PyVal.list [])).bind (fun sectors =>
        (pyStringList? (if truthy (dgetv r "stages")
            then dgetv r "stages" else PyVal.list [])).bind (fun stages =>
          Option.some ⟨dgetv r "funding_classification",
            (if (sectors.map map_sector_label_for_sheet).isEmpty then PyVal.none
             else PyVal.str (String.intercalate ", "
               (sectors.map map_sector_label_for_sheet))),
            (if pyEqStr (dgetv r "funding_classification") "Venture Capital Funds"
                && !stages.isEmpty
             then PyVal.str (String.intercalate ", " stages) else PyVal.none),
            (if pyEqStr (dgetv r "funding_classification") "Angel Investors"
             then dgetv r "angel_type" else PyVal.none),
            dgetv r "additional_info"⟩)) := rfl
  have hnil : pyStringList? (PyVal.list []) = Option.some ([] : List String) := rfl
  rw [hbody, hdsec, hdstages, if_pos htr, ite_self, pyStringList_map_str]
  simp only [Option.some_bind]
  rw [hnil]
  simp only [Option.some_bind]
  rw [hdfc, hdai, hmapne]
  simp

/-! ## The claims -/

set_option maxRecDepth 100000

/-- C1: for every organization, input record, heuristic classification and
inferred-sector list, the record returned by `sanitize_record` carries no
VC-only data when its classification is not "Venture Capital Funds"
(`stages` is the empty list and the three ticket fields are null), and a
null `angel_type` when it is not "Angel Investors". -/
theorem claim_c1 (org : Org) (record : PyDict) (h : String) (s : List String)
    (r' : PyDict) (hs : sanitize_record org record h s = Option.some r') :
    (dget r' "funding_classification" ≠ Option.some (PyVal.str "Venture Capital Funds") →
      dget r' "stages" = Option.some (PyVal.list []) ∧
      dget r' "ticket_size_usd_min" = Option.some PyVal.none ∧
      dget r' "ticket_size_usd_max" = Option.some PyVal.none ∧
      dget r' "ticket_size_currency" = Option.some PyVal.none) ∧
    (dget r' "funding_classification" ≠ Option.some (PyVal.str "Angel Investors") →
      dget r' "angel_type" = Option.some PyVal.none) := by
  obtain ⟨fcs, secs, hfcF, hfcne, _, _, _, _, _, _, hstages, hangel⟩ :=
    sanitize_spec org record h s r' hs
  constructor
  · intro hne
    apply hstages
    intro hc
    exact hne (hc ▸ hfcF)
  · intro hne
    apply hangel
    intro hc
    exact hne (hc ▸ hfcF)

theorem claim_c1_witness :
    dget r0out "stages" = Option.some (PyVal.list []) ∧
    dget r0out "angel_type" = Option.some PyVal.none := by
  have happ := claim_c1 org0 [] "" [] r0out (by rfl)
  have hfc : dget r0out "funding_classification" =
      Option.some (PyVal.str "Investment Firms") := rfl
  refine ⟨(happ.1 ?_).1, happ.2 ?_⟩
  · intro hc
    rw [hfc] at hc
    simp at hc
  · intro hc
    rw [hfc] at hc
    simp at hc

/-- C2: `sanitize_record` is idempotent — whenever it returns a record,
sanitizing that record again with the same organization, heuristic
classification and inferred-sector list returns it unchanged. -/
theorem claim_c2 (org : Org) (record : PyDict) (h : String) (s : List String)
    (r' : PyDict) (hs : sanitize_record org record h s = Option.some r') :
    sanitize_record org r' h s = Option.some r' :=
  sanitize_idem_aux org record h s r' hs

theorem claim_c2_witness : sanitize_record org0 r0out "" [] = Option.some r0out :=
  claim_c2 org0 [] "" [] r0out (by rfl)

theorem infer_stage_some_eq (a : Rat) :
    infer_stage_from_ticket (Option.some a) =
      (if 100000 ≤ a ∧ a ≤ 500000 then Option.some "Pre-seed"
       else if 500000 < a ∧ a ≤ 2000000 then Option.some "Seed"
       else if 2000000 < a ∧ a ≤ 10000000 then Option.some "Series A"
       else if 10000000 < a ∧ a ≤ 30000000 then Option.some "Series B"
       else if 30000000 < a then Option.some "Series C"
       else Option.none) := rfl

/-- C4: `infer_stage_from_ticket` maps null and any amount below 100000 to
null, [100000, 500000] to "Pre-seed", (500000, 2000000] to "Seed",
(2000000, 10000000] to "Series A", (10000000, 30000000] to "Series B" and
(30000000, ∞) to "Series C"; in particular 2000000 itself falls in the
"Seed" range, not "Series A". -/
theorem claim_c4 (a : Rat) :
    infer_stage_from_ticket Option.none = Option.none ∧
    (a < 100000 → infer_stage_from_ticket (Option.some a) = Option.none) ∧
    (100000 ≤ a → a ≤ 500000 →
      infer_stage_from_ticket (Option.some a) = Option.some "Pre-seed") ∧
    (500000 < a → a ≤ 2000000 →
      infer_stage_from_ticket (Option.some a) = Option.some "Seed") ∧
    (2000000 < a → a ≤ 10000000 →
      infer_stage_from_ticket (Option.some a) = Option.some "Series A") ∧
    (10000000 < a → a ≤ 30000000 →
      infer_stage_from_ticket (Option.some a) = Option.some "Series B") ∧
    (30000000 < a → infer_stage_from_ticket (Option.some a) = Option.some "Series C") := by
  refine ⟨rfl, ?_, ?_, ?_, ?_, ?_, ?_⟩
  · intro h1
    rw [infer_stage_some_eq]
    rw [if_neg (by intro hc; obtain ⟨hx, _⟩ := hc; linarith),
      if_neg (by intro hc; obtain ⟨hx, _⟩ := hc; linarith),
      if_neg (by intro hc; obtain ⟨hx, _⟩ := hc; linarith),
      if_neg (by intro hc; obtain ⟨hx, _⟩ := hc; linarith),
      if_neg (by intro hc; linarith)]
  · intro h1 h2
    rw [infer_stage_some_eq]
    rw [if_pos ⟨h1, h2⟩]
  · intro h1 h2
    rw [infer_stage_some_eq]
    rw [if_neg (by intro hc; obtain ⟨_, hy⟩ := hc; linarith), if_pos ⟨h1, h2⟩]
  · intro h1 h2
    rw [infer_stage_some_eq]
    rw [if_neg (by intro hc; obtain ⟨_, hy⟩ := hc; linarith),
      if_neg (by intro hc; obtain ⟨_, hy⟩ := hc; linarith), if_pos ⟨h1, h2⟩]
  · intro h1 h2
    rw [infer_stage_some_eq]
    rw [if_neg (by intro hc; obtain ⟨_, hy⟩ := hc; linarith),
      if_neg (by intro hc; obtain ⟨_, hy⟩ := hc; linarith),
      if_neg (by intro hc; obtain ⟨_, hy⟩ := hc; linarith), if_pos ⟨h1, h2⟩]
  · intro h1
    rw [infer_stage_some_eq]
    rw [if_neg (by intro hc; obtain ⟨_, hy⟩ := hc; linarith),
      if_neg (by intro hc; obtain ⟨_, hy⟩ := hc; linarith),
      if_neg (by intro hc; obtain ⟨_, hy⟩ := hc; linarith),
      if_neg (by intro hc; obtain ⟨_, hy⟩ := hc; linarith), if_pos h1]

theorem claim_c4_witness :
    infer_stage_from_ticket (Option.some 2000000) = Option.some "Seed" ∧
    infer_stage_from_ticket (Option.some 30000000) = Option.some "Series B" ∧
    infer_stage_from_ticket (Option.some 30000001) = Option.some "Series C" :=
  ⟨(claim_c4 2000000).2.2.2.1 (by norm_num) (by norm_num),
   (claim_c4 30000000).2.2.2.2.2.1 (by norm_num) (by norm_num),
   (claim_c4 30000001).2.2.2.2.2.2 (by norm_num)⟩

/-- C3 (code bug): `_normalize_ddg_href` returns any http(s) URL unchanged
before it ever reaches the uddg-unwrapping branch, so the DuckDuckGo
redirect of the spec's own example — whose host is duckduckgo.com, whose
path starts with /l/ and whose uddg parameter decodes to
"https://example.org/" — is returned as-is instead of unwrapped. -/
theorem claim_c3 :
    normalize_ddg_href (PyVal.str ddg_href) = Option.some ddg_href ∧
    (urlparse3 ddg_href).netloc = "duckduckgo.com" ∧
    (strStartsWith (urlparse3 ddg_href).path "/l/") = true ∧
    parse_qs_first (urlparse3 ddg_href).query "uddg" =
      Option.some "https://example.org/" ∧
    normalize_ddg_href (PyVal.str ddg_href) ≠ Option.some "https://example.org/" := by
  refine ⟨by rfl, by rfl, by rfl, by rfl, ?_⟩
  intro hc
  have h1 : normalize_ddg_href (PyVal.str ddg_href) = Option.some ddg_href := by rfl
  rw [h1] at hc
  exact absurd (Option.some.inj hc) (by decide)

/-- C9 counterexample: the URL "https://microsoft.com" resolves to the host
microsoft.com, which is none of the six social-media hosts, yet `_is_social`
rejects it because the lowercased URL contains "t.co" as a substring. -/
theorem claim_c9_counterexample :
    is_social "https://microsoft.com" = true ∧
    (urlparse3 "https://microsoft.com").netloc = "microsoft.com" ∧
    (∀ s ∈ SOCIAL_SUBSTRINGS, (urlparse3 "https://microsoft.com").netloc ≠ s) := by
  refine ⟨by decide, by rfl, by decide⟩

/-- C9 (amended): `_is_social` is a substring scan over the whole lowercased
URL — a candidate is rejected as social media if and only if one of the six
social substrings occurs anywhere in the lowercased URL, not if and only if
its host is one of the social hosts. -/
theorem claim_c9 (url : String) :
    is_social url = true ↔
      ∃ s ∈ SOCIAL_SUBSTRINGS, List.IsInfix s.data (strToLower url).data := by
  unfold is_social
  rw [List.any_eq_true]
  constructor
  · rintro ⟨s, hs, h⟩
    exact ⟨s, hs, of_decide_eq_true h⟩
  · rintro ⟨s, hs, h⟩
    exact ⟨s, hs, decide_eq_true h⟩

/-- C7: once the raw model text is obtained, record extraction is total —
a strict JSON parse is returned when it succeeds; otherwise the parse of
the first-to-last brace substring when that succeeds (in particular the
spec's own example recovers the embedded object from surrounding prose);
otherwise the structured fallback record. -/
theorem claim_c7 (org : Org) (out : String) :
    (∀ v, json_loads out = Option.some v → extract_record_from_raw org out = v) ∧
    (∀ sub v, json_loads out = Option.none → brace_substring out = Option.some sub →
      json_loads sub = Option.some v → extract_record_from_raw org out = v) ∧
    (json_loads out = Option.none →
      (brace_substring out).bind json_loads = Option.none →
      extract_record_from_raw org out = raw_fallback_record org out) ∧
    extract_record_from_raw org0 c7raw = c7out := by
  refine ⟨?_, ?_, ?_, by rfl⟩
  · intro v hv
    unfold extract_record_from_raw
    rw [hv]
  · intro sub v h0 hsub hv
    unfold extract_record_from_raw
    rw [h0, hsub]
    show (match json_loads sub with
      | Option.some v => v
      | Option.none => raw_fallback_record org out) = v
    rw [hv]
  · intro h0 hboth
    unfold extract_record_from_raw
    rw [h0]
    cases hb : brace_substring out with
    | none => rfl
    | some sub =>
        rw [hb] at hboth
        have h2 : json_loads sub = Option.none := by simpa using hboth
        show (match json_loads sub with
          | Option.some v => v
          | Option.none => raw_fallback_record org out) = raw_fallback_record org out
        rw [h2]

theorem claim_c7_witness :
    extract_record_from_raw org0 "\x7b\x7d" = PyVal.dict [] ∧
    extract_record_from_raw org0 "nope" = raw_fallback_record org0 "nope" :=
  ⟨(claim_c7 org0 "\x7b\x7d").1 (PyVal.dict []) (by rfl),
   (claim_c7 org0 "nope").2.2.1 (by rfl) (by rfl)⟩

theorem fix_fc_fallback (org : Org) (hfc : String) (hne : hfc ≠ "")
    (hstrip : pyStrip hfc = hfc) :
    fix_fc (heuristic_fallback_record org hfc) hfc =
      Option.some (heuristic_fallback_record org hfc) := by
  have hget : dgetv (heuristic_fallback_record org hfc) "funding_classification" =
      PyVal.str hfc := rfl
  have hbody : fix_fc (heuristic_fallback_record org hfc) hfc =
      (match (if truthy (dgetv (heuristic_fallback_record org hfc) "funding_classification")
          then dgetv (heuristic_fallback_record org hfc) "funding_classification"
          else PyVal.str "") with
       | PyVal.str s0 =>
           Option.some (if pyStrip s0 == "" then
             dset (heuristic_fallback_record org hfc) "funding_classification"
               (PyVal.str (if hfc == "" then "Investment Firms" else hfc))
           else heuristic_fallback_record org hfc)
       | _ => Option.none) := rfl
  rw [hbody, hget, if_pos (show truthy (PyVal.str hfc) = true by simpa [truthy] using hne)]
  show Option.some (if pyStrip hfc == "" then
      dset (heuristic_fallback_record org hfc) "funding_classification"
        (PyVal.str (if hfc == "" then "Investment Firms" else hfc))
    else heuristic_fallback_record org hfc) =
    Option.some (heuristic_fallback_record org hfc)
  rw [hstrip, if_neg (show ¬ ((hfc == "") = true) by simpa using hne)]

set_option maxHeartbeats 2000000 in
/-- C8: for every organization whose search, page fetch and model call all
failed, the orchestrator's heuristic-only fallback path still yields a
written row whose classification equals the non-empty heuristic result and
whose descriptive note is a non-empty synthesized string. -/
theorem claim_c8 (org : Org) :
    ∃ nr : NormalizedRow, failed_row_columns org = Option.some nr ∧
      nr.funding_classification =
        PyVal.str (heuristic_funding_classification org.name "") ∧
      heuristic_funding_classification org.name "" ≠ "" ∧
      ∃ t : String, nr.note = PyVal.str t ∧ t ≠ "" := by
  obtain ⟨hne0, hstrip0⟩ := heuristic_facts org.name ""
  have hfix := fix_fc_fallback org (heuristic_funding_classification org.name "") hne0 hstrip0
  have hsan : sanitize_record org
      (heuristic_fallback_record org (heuristic_funding_classification org.name ""))
      (heuristic_funding_classification org.name "") (infer_sectors_multi "") =
      Option.some (fix_sources (fix_stages (fix_ai org
        (fix_sectors (fix_angel org
          (heuristic_fallback_record org (heuristic_funding_classification org.name "")))
          (infer_sectors_multi ""))))) := by
    unfold sanitize_record
    rw [hfix]
    rfl
  obtain ⟨fcs, secs, hfcF, hfcne, hsecKA, hsecne, _, _, _, ⟨t, haiKA, htne, _⟩, _, _⟩ :=
    sanitize_spec org
      (heuristic_fallback_record org (heuristic_funding_classification org.name ""))
      (heuristic_funding_classification org.name "") (infer_sectors_multi "") _ hsan
  have hfcdirect : dget (fix_sources (fix_stages (fix_ai org
      (fix_sectors (fix_angel org
        (heuristic_fallback_record org (heuristic_funding_classification org.name "")))
        (infer_sectors_multi ""))))) "funding_classification" =
      Option.some (PyVal.str (heuristic_funding_classification org.name "")) := by
    rw [dget_fix_sources_ne _ _ (by decide),
      dget_fix_stages_ne _ _ (by decide) (by decide) (by decide) (by decide),
      dget_fix_ai_ne _ _ _ (by decide), dget_fix_sectors_ne _ _ _ (by decide),
      dget_fix_angel_ne _ _ _ (by decide)]
    rfl
  have hstages : dget (fix_sources (fix_stages (fix_ai org
      (fix_sectors (fix_angel org
        (heuristic_fallback_record org (heuristic_funding_classification org.name "")))
        (infer_sectors_multi ""))))) "stages" = Option.some (PyVal.list []) := by
    by_cases hvc : pyEqStr (dgetv (fix_ai org (fix_sectors (fix_angel org
        (heuristic_fallback_record org (heuristic_funding_classification org.name "")))
        (infer_sectors_multi ""))) "funding_classification") "Venture Capital Funds" = true
    · have hno : fix_stages (fix_ai org (fix_sectors (fix_angel org
          (heuristic_fallback_record org (heuristic_funding_classification org.name "")))
          (infer_sectors_multi ""))) = fix_ai org (fix_sectors (fix_angel org
          (heuristic_fallback_record org (heuristic_funding_classification org.name "")))
          (infer_sectors_multi "")) := by
        unfold fix_stages
        rw [if_pos hvc]
      rw [dget_fix_sources_ne _ _ (by decide), hno,
        dget_fix_ai_ne _ _ _ (by decide), dget_fix_sectors_ne _ _ _ (by decide),
        dget_fix_angel_ne _ _ _ (by decide)]
      rfl
    · have hcl := (fix_stages_cleared _ (by simpa using hvc)).1
      rw [dget_fix_sources_ne _ _ (by decide)]
      exact hcl
  have hsec := dget_of_KeyAll _ _ _ hsecKA
  have hai := dget_of_KeyAll _ _ _ haiKA
  have hnorm := normalize_on_sanitized _ (PyVal.str fcs) secs t hfcF hsec hsecne hstages hai
  have hcols : failed_row_columns org =
      (sanitize_record org
        (heuristic_fallback_record org (heuristic_funding_classification org.name ""))
        (heuristic_funding_classification org.name "")
        (infer_sectors_multi "")).bind normalize_to_columns := rfl
  rw [hsan] at hcols
  have hcols2 : failed_row_columns org = normalize_to_columns
      (fix_sources (fix_stages (fix_ai org (fix_sectors (fix_angel org
        (heuristic_fallback_record org (heuristic_funding_classification org.name "")))
        (infer_sectors_multi ""))))) := hcols
  rw [hnorm] at hcols2
  refine ⟨_, hcols2, ?_, hne0, t, rfl, htne⟩
  have hfcs : fcs = heuristic_funding_classification org.name "" := by
    have := hfcF.symm.trans hfcdirect
    injection this with hx
    injection hx
  rw [hfcs]

theorem claim_c8_witness :
    ∃ nr : NormalizedRow, failed_row_columns org0 = Option.some nr ∧
      nr.funding_classification =
        PyVal.str (heuristic_funding_classification org0.name "") ∧
      heuristic_funding_classification org0.name "" ≠ "" ∧
      ∃ t : String, nr.note = PyVal.str t ∧ t ≠ "" :=
  claim_c8 org0

/-- C10 (frame): `sanitize_record` writes only its nine own fields — every
key other than funding_classification, angel_type, sectors, additional_info,
stages, the three ticket fields and sources has the same value in the
returned record as in the input record. -/
theorem claim_c10 (org : Org) (record : PyDict) (h : String) (s : List String)
    (r' : PyDict) (hs : sanitize_record org record h s = Option.some r') (k : String)
    (h1 : k ≠ "funding_classification") (h2 : k ≠ "angel_type") (h3 : k ≠ "sectors")
    (h4 : k ≠ "additional_info") (h5 : k ≠ "stages") (h6 : k ≠ "ticket_size_usd_min")
    (h7 : k ≠ "ticket_size_usd_max") (h8 : k ≠ "ticket_size_currency")
    (h9 : k ≠ "sources") :
    dget r' k = dget record k := by
  obtain ⟨r1, hfc, hr'⟩ := sanitize_unfold org record h s r' hs
  rw [hr', dget_fix_sources_ne _ _ h9, dget_fix_stages_ne _ _ h5 h6 h7 h8,
    dget_fix_ai_ne _ _ _ h4, dget_fix_sectors_ne _ _ _ h3, dget_fix_angel_ne _ _ _ h2,
    dget_fix_fc_ne record h r1 hfc k h1]

theorem claim_c10_witness : dget r10out "notes" = dget rec10 "notes" :=
  claim_c10 org0 rec10 "" [] r10out (by rfl) "notes" (by decide) (by decide)
    (by decide) (by decide) (by decide) (by decide) (by decide) (by decide) (by decide)
